import Mathlib

/-
  Verification of core subsystems of a small RISC-V educational kernel
  (page-frame allocator / Sv39 address spaces, syscall validation, ELF
  loader, KTFS filesystem, write-back block cache, seekable I/O wrapper,
  reentrant locks) against its natural-language specification.

  Each C function relevant to a claim is shallowly embedded as an
  executable Lean definition; machine integers are modelled as Nat with
  explicit wrap-around (mod 2^64) where the C arithmetic can overflow.
-/

namespace KernelSpec

/-- Error taxonomy of the kernel (error.h names; the C encodes these as
negative integers at the syscall boundary). -/
inductive Err where
  | EINVAL
  | EACCESS
  | EBADFD
  | EBADFMT
  | EIO
  | ENOMEM
  | ENOENT
  | ENOTSUP
  | ECHILD
  | EMFILE
  | EMTHR
  | ENODATABLKS
  | ENOINODEBLKS
  deriving DecidableEq, Repr

deriving instance DecidableEq for Except

/-! ## Block cache (cache.c)

The cache keeps a singly linked list of entries (head = oldest, new
entries appended at the tail) together with a size counter, bounded by
`CACHE_CAPACITY`.  The backing block device is modelled by a read map
(`none` = I/O error on read) and a write-success predicate. -/

def CACHE_BLKSZ : Nat := 512

def CACHE_CAPACITY : Nat := 64

/-- One cache entry (`struct cache_entry`): block number, 512-byte data
buffer (as a byte map), valid flag and dirty flag.  The `next` link of
the C struct is represented by the position in the list. -/
structure CacheEntry where
  blocknum : Nat
  data : Nat → Nat
  valid : Bool
  dirty : Bool

/-- Cache state (`struct cache`): the entry list (head first) and the
size counter maintained by the C code. -/
structure Cache where
  entries : List CacheEntry
  size : Nat

/-- Backing block device as seen by the cache: `readBlk` returns the 512
bytes at a block-aligned position (`none` models a failed/short
`ioreadat`), `writeOk` tells whether `iowriteat` of a block succeeds. -/
structure BlockDev where
  readBlk : Nat → Option (Nat → Nat)
  writeOk : Nat → Bool

/-- `create_cache`: fresh cache with no entries. -/
def create_cache : Cache := { entries := [], size := 0 }

/-- Hit test of the search loop in `cache_get_block`: a valid entry with
a matching block number. -/
def cacheHit (bn : Nat) (e : CacheEntry) : Bool :=
  e.valid && (e.blocknum == bn)

/-- Eviction step of `cache_get_block` on a miss: when the size counter
has reached `CACHE_CAPACITY`, unlink the list head (FIFO victim) and
write it back if valid and dirty; the Bool is the write-back outcome
(`false` = failed `iowriteat`, which the caller propagates). -/
def cacheEvictIfFull (dev : BlockDev) (cache : Cache) : Cache × Bool :=
  if CACHE_CAPACITY ≤ cache.size then
    match cache.entries with
    | [] => ({ entries := [], size := cache.size - 1 }, true)
    | victim :: rest =>
        if victim.valid && victim.dirty then
          ({ entries := rest, size := cache.size - 1 },
           dev.writeOk victim.blocknum)
        else
          ({ entries := rest, size := cache.size - 1 }, true)
  else (cache, true)

/-- `cache_get_block(cache, pos, &ptr)`.  Returns the updated cache and
the result code.  Mirrors the C control flow: reject non-block-aligned
positions; linear search for a hit; on miss, evict the FIFO head when
full (a write-back failure propagates after the victim is already
removed); then read the block from the backing device (failure = EIO,
no entry added) and append a new clean entry at the tail. -/
def cache_get_block (dev : BlockDev) (cache : Cache) (pos : Nat) :
    Cache × Except Err Unit :=
  if pos % CACHE_BLKSZ ≠ 0 then
    (cache, .error .EINVAL)
  else if cache.entries.any (cacheHit (pos / CACHE_BLKSZ)) then
    (cache, .ok ())
  else
    match cacheEvictIfFull dev cache with
    | (c', false) => (c', .error Err.EIO)   -- write-back failure propagates
    | (c', true) =>
        match dev.readBlk (pos / CACHE_BLKSZ) with
        | none => (c', .error Err.EIO)
        | some bytes =>
            ({ entries := c'.entries ++
                 [{ blocknum := pos / CACHE_BLKSZ, data := bytes,
                    valid := true, dirty := false }],
               size := c'.size + 1 }, .ok ())

/-- `cache_release_block(cache, pblk, dirty)`: mark the first valid
entry holding the released buffer dirty when `dirty` is set.  The C
identifies the entry by buffer pointer; here the entry is identified by
its block number. -/
def cache_release_block (cache : Cache) (bn : Nat) (dirty : Bool) : Cache :=
  if dirty then
    { cache with
      entries := cache.entries.map (fun e =>
        if cacheHit bn e then { e with dirty := true } else e) }
  else cache

/-- `cache_flush(cache)`: write back every valid dirty entry; stop with
EIO at the first failed write.  Entries written successfully before
the failure are left clean (modelled by processing the list in order). -/
def cache_flush (dev : BlockDev) (cache : Cache) : Cache × Except Err Unit :=
  let rec go : List CacheEntry → Option (List CacheEntry)
    | [] => some []
    | e :: rest =>
        if e.valid && e.dirty then
          if dev.writeOk e.blocknum then
            (go rest).map (fun r => { e with dirty := false } :: r)
          else none
        else (go rest).map (fun r => e :: r)
  match go cache.entries with
  | none => (cache, .error Err.EIO)
  | some l => ({ cache with entries := l }, .ok ())

/-- A client operation on the cache. -/
inductive CacheOp where
  | get (pos : Nat)
  | release (bn : Nat) (dirty : Bool)
  | flush
  deriving Repr

/-- One step of the cache under a client operation (result code
discarded; the state is what the invariant is about). -/
def cacheStep (dev : BlockDev) (cache : Cache) (op : CacheOp) : Cache :=
  match op with
  | .get pos => (cache_get_block dev cache pos).1
  | .release bn dirty => cache_release_block cache bn dirty
  | .flush => (cache_flush dev cache).1

/-- Run a sequence of operations from the freshly created cache. -/
def cacheRun (dev : BlockDev) (ops : List CacheOp) : Cache :=
  ops.foldl (cacheStep dev) create_cache

/-- Representation invariant tying the C size counter to the list. -/
def cacheWf (c : Cache) : Prop :=
  c.entries.length = c.size ∧ c.size ≤ CACHE_CAPACITY

theorem cacheEvictIfFull_wf (dev : BlockDev) (c : Cache) (h : cacheWf c) :
    cacheWf (cacheEvictIfFull dev c).1 ∧
      (cacheEvictIfFull dev c).1.size + 1 ≤ CACHE_CAPACITY := by
  obtain ⟨hlen, hcap⟩ := h
  by_cases hfull : CACHE_CAPACITY ≤ c.size
  · cases hc : c.entries with
    | nil =>
        exfalso
        rw [hc] at hlen
        simp only [List.length_nil] at hlen
        simp only [CACHE_CAPACITY] at hfull
        omega
    | cons victim rest =>
        have hlen' : rest.length + 1 = c.size := by
          rw [hc] at hlen; simpa using hlen
        simp only [cacheEvictIfFull, if_pos hfull, hc]
        by_cases hvd : (victim.valid && victim.dirty) = true
        · rw [if_pos hvd]
          exact ⟨⟨by simpa using by omega, by simp only []; omega⟩,
            by simp only []; omega⟩
        · rw [if_neg hvd]
          exact ⟨⟨by simpa using by omega, by simp only []; omega⟩,
            by simp only []; omega⟩
  · simp only [cacheEvictIfFull, if_neg hfull]
    exact ⟨⟨hlen, hcap⟩, by omega⟩

theorem cache_get_block_wf (dev : BlockDev) (c : Cache) (pos : Nat)
    (h : cacheWf c) : cacheWf (cache_get_block dev c pos).1 := by
  have hev := cacheEvictIfFull_wf dev c h
  unfold cache_get_block
  split
  · exact h
  split
  · exact h
  rcases hc : cacheEvictIfFull dev c with ⟨c', ok⟩
  rw [hc] at hev
  dsimp only at hev
  obtain ⟨⟨hlen, hcap'⟩, hroom⟩ := hev
  cases ok with
  | false => exact ⟨hlen, hcap'⟩
  | true =>
      cases hread : dev.readBlk (pos / CACHE_BLKSZ) with
      | none => exact ⟨hlen, hcap'⟩
      | some bytes =>
          refine ⟨?_, ?_⟩
          · dsimp only
            simp only [List.length_append, List.length_cons,
              List.length_nil]
            omega
          · dsimp only
            omega

theorem cache_release_block_wf (c : Cache) (bn : Nat) (d : Bool)
    (h : cacheWf c) : cacheWf (cache_release_block c bn d) := by
  obtain ⟨hlen, hcap⟩ := h
  unfold cache_release_block
  split
  · exact ⟨by simpa using hlen, hcap⟩
  · exact ⟨hlen, hcap⟩

theorem cache_flush_go_length (dev : BlockDev) (l : List CacheEntry)
    (r : List CacheEntry) (h : cache_flush.go dev l = some r) :
    r.length = l.length := by
  induction l generalizing r with
  | nil =>
      simp only [cache_flush.go] at h
      cases h; rfl
  | cons e rest ih =>
      simp only [cache_flush.go] at h
      split at h
      · split at h
        · cases hgo : cache_flush.go dev rest with
          | none => rw [hgo] at h; simp at h
          | some r' =>
              rw [hgo] at h
              simp only [Option.map_some'] at h
              cases h
              simp [ih r' hgo]
        · simp at h
      · cases hgo : cache_flush.go dev rest with
        | none => rw [hgo] at h; simp at h
        | some r' =>
            rw [hgo] at h
            simp only [Option.map_some'] at h
            cases h
            simp [ih r' hgo]

theorem cache_flush_wf (dev : BlockDev) (c : Cache)
    (h : cacheWf c) : cacheWf (cache_flush dev c).1 := by
  obtain ⟨hlen, hcap⟩ := h
  unfold cache_flush
  cases hgo : cache_flush.go dev c.entries with
  | none => exact ⟨hlen, hcap⟩
  | some l =>
      refine ⟨?_, hcap⟩
      simpa [cache_flush_go_length dev c.entries l hgo] using hlen

theorem cacheStep_wf (dev : BlockDev) (c : Cache) (op : CacheOp)
    (h : cacheWf c) : cacheWf (cacheStep dev c op) := by
  cases op with
  | get pos => exact cache_get_block_wf dev c pos h
  | release bn d => exact cache_release_block_wf c bn d h
  | flush => exact cache_flush_wf dev c h

/-- C6: the block cache never holds more than `CACHE_CAPACITY = 64`
entries: starting from `create_cache`, after any sequence of
get/release/flush operations — where a miss appends at the tail if below
capacity and otherwise evicts the FIFO head (writing it back when dirty,
with a write-back failure propagated) — the entry count is at most 64. -/
theorem cache_capacity_invariant (dev : BlockDev) (ops : List CacheOp) :
    (cacheRun dev ops).entries.length ≤ CACHE_CAPACITY := by
  have h : cacheWf (cacheRun dev ops) := by
    unfold cacheRun
    induction ops using List.reverseRecOn with
    | nil => exact ⟨rfl, by norm_num [create_cache, CACHE_CAPACITY]⟩
    | append_singleton l op ih =>
        rw [List.foldl_append, List.foldl_cons, List.foldl_nil]
        exact cacheStep_wf dev _ op ih
  obtain ⟨hlen, hcap⟩ := h
  omega

/-! ## Seekable I/O wrapper (io.c, `struct seekio`)

`create_seekable_io` layers a byte cursor on top of an at-addressable
endpoint.  The C stores `pos`, `end` and `blksz` (a positive power of
two); `seekio_read`/`seekio_write` are embedded below.  Unsigned 64-bit
arithmetic is modelled as Nat with explicit wrap-around. -/

def U64 : Nat := 2 ^ 64

/-- 64-bit unsigned subtraction `a - b` (mod 2^64), for `a b < 2^64`. -/
def u64sub (a b : Nat) : Nat := (a + U64 - b % U64) % U64

/-- Cursor state of `struct seekio` (`end` is a Lean keyword, hence
`endp`). -/
structure Seekio where
  pos : Nat
  endp : Nat
  blksz : Nat

/-- Backing endpoint of the wrapper: positioned read/write (returning a
byte count or an error) and the `IOCTL_SETEND` control. -/
structure SeekBack where
  readat : Nat → Nat → Except Err Nat
  writeat : Nat → Nat → Except Err Nat
  setend : Nat → Except Err Unit

/-- Truncation `x &= ~(blksz - 1)` of the C code; for a power-of-two
block size this is rounding down to a multiple of `blksz`. -/
def truncBlk (x blksz : Nat) : Nat := x / blksz * blksz

/-- `seekio_read(io, buf, bufsz)`: clamp the request to `end - pos`
(64-bit unsigned), return 0 on a zero clamped length, `EINVAL` on a
nonzero clamped length below the block size, otherwise truncate to a
multiple of the block size, read through the backing endpoint and
advance the cursor by the bytes read (by 0 on failure). -/
def seekio_read (bkg : SeekBack) (sio : Seekio) (bufsz0 : Nat) :
    Seekio × Except Err Nat :=
  let pos := sio.pos
  let bufsz := if u64sub sio.endp pos < bufsz0 then u64sub sio.endp pos
               else bufsz0
  if bufsz = 0 then (sio, .ok 0)
  else if bufsz < sio.blksz then (sio, .error .EINVAL)
  else
    match bkg.readat pos (truncBlk bufsz sio.blksz) with
    | .error e => ({ sio with pos := pos + 0 }, .error e)
    | .ok rcnt => ({ sio with pos := pos + rcnt }, .ok rcnt)

/-- `seekio_write(io, buf, len)`: return 0 on a zero length, `EINVAL`
on a nonzero length below the block size, otherwise truncate to a
multiple of the block size; if the write reaches past `end`, first grow
the backing endpoint via `IOCTL_SETEND` (rejecting a 64-bit overflow of
`pos + len` with `EINVAL`, and propagating a failed SETEND); then write
and advance the cursor by the bytes written (by 0 on failure). -/
def seekio_write (bkg : SeekBack) (sio : Seekio) (len0 : Nat) :
    Seekio × Except Err Nat :=
  let pos := sio.pos
  if len0 = 0 then (sio, .ok 0)
  else if len0 < sio.blksz then (sio, .error .EINVAL)
  else
    let len := truncBlk len0 sio.blksz
    let grow : Except Err Seekio :=
      if u64sub sio.endp pos < len then
        if U64 - 1 - pos < len then .error .EINVAL
        else
          match bkg.setend (pos + len) with
          | .error e => .error e
          | .ok () => .ok { sio with endp := pos + len }
      else .ok sio
    match grow with
    | .error e => (sio, .error e)
    | .ok sio' =>
        match bkg.writeat pos len with
        | .error e => ({ sio' with pos := pos + 0 }, .error e)
        | .ok wcnt => ({ sio' with pos := pos + wcnt }, .ok wcnt)

theorem u64sub_of_le (a b : Nat) (hle : b ≤ a) (ha : a < U64) :
    u64sub a b = a - b := by
  simp only [u64sub, U64] at *
  omega

/-- C7 counterexample: with block size 512 and the cursor at the end
(`pos = end = 512`), a sequential read with the non-zero requested
length 100 (below the block size) returns 0, not `EINVAL`: the request
is clamped to `end - pos = 0` before the minimum-length check. -/
theorem seekio_read_small_at_end_returns_zero :
    seekio_read
      { readat := fun _ _ => .ok 0, writeat := fun _ _ => .ok 0,
        setend := fun _ => .ok () }
      { pos := 512, endp := 512, blksz := 512 } 100 =
      ({ pos := 512, endp := 512, blksz := 512 }, .ok 0) := by
  rfl

/-- C7 (amended): for a seekable wrapper with `pos ≤ end < 2^64` and a
positive block size: a sequential write with non-zero length below the
block size returns `EINVAL`, and a sequential read returns `EINVAL`
when the request, clamped to `end - pos`, is non-zero and below the
block size (returning 0 when it clamps to zero); otherwise the length
is truncated to a multiple of the block size — a write reaching past
`end` first growing the backing endpoint via `SETEND` (`EINVAL` when
`pos + len` overflows 64 bits, a failed `SETEND` propagated with the
cursor unchanged) — and when the backing transfer succeeds with `n`
bytes the cursor afterwards equals the position before plus `n`, while
on a failed transfer it is unchanged. -/
theorem seekio_cursor_semantics (bkg : SeekBack) (sio : Seekio)
    (sz : Nat) (hpe : sio.pos ≤ sio.endp) (he : sio.endp < U64)
    (hblk : 0 < sio.blksz) :
    (min sz (sio.endp - sio.pos) = 0 →
      seekio_read bkg sio sz = (sio, .ok 0)) ∧
    (0 < min sz (sio.endp - sio.pos) →
      min sz (sio.endp - sio.pos) < sio.blksz →
      seekio_read bkg sio sz = (sio, .error .EINVAL)) ∧
    (sio.blksz ≤ min sz (sio.endp - sio.pos) →
      (∀ n, bkg.readat sio.pos
          (truncBlk (min sz (sio.endp - sio.pos)) sio.blksz) = .ok n →
        seekio_read bkg sio sz = ({ sio with pos := sio.pos + n }, .ok n)) ∧
      (∀ e, bkg.readat sio.pos
          (truncBlk (min sz (sio.endp - sio.pos)) sio.blksz) = .error e →
        seekio_read bkg sio sz = (sio, .error e))) ∧
    (0 < sz → sz < sio.blksz →
      seekio_write bkg sio sz = (sio, .error .EINVAL)) ∧
    (sio.blksz ≤ sz → truncBlk sz sio.blksz ≤ sio.endp - sio.pos →
      (∀ n, bkg.writeat sio.pos (truncBlk sz sio.blksz) = .ok n →
        seekio_write bkg sio sz = ({ sio with pos := sio.pos + n }, .ok n)) ∧
      (∀ e, bkg.writeat sio.pos (truncBlk sz sio.blksz) = .error e →
        seekio_write bkg sio sz = (sio, .error e))) ∧
    (sio.blksz ≤ sz → sio.endp - sio.pos < truncBlk sz sio.blksz →
      truncBlk sz sio.blksz ≤ U64 - 1 - sio.pos →
      bkg.setend (sio.pos + truncBlk sz sio.blksz) = .ok () →
      (∀ n, bkg.writeat sio.pos (truncBlk sz sio.blksz) = .ok n →
        seekio_write bkg sio sz =
          ({ sio with pos := sio.pos + n, endp := sio.pos + truncBlk sz sio.blksz },
            .ok n)) ∧
      (∀ e, bkg.writeat sio.pos (truncBlk sz sio.blksz) = .error e →
        seekio_write bkg sio sz =
          ({ sio with endp := sio.pos + truncBlk sz sio.blksz },
            .error e))) ∧
    (sio.blksz ≤ sz → sio.endp - sio.pos < truncBlk sz sio.blksz →
      truncBlk sz sio.blksz ≤ U64 - 1 - sio.pos →
      ∀ e, bkg.setend (sio.pos + truncBlk sz sio.blksz) = .error e →
        seekio_write bkg sio sz = (sio, .error e)) ∧
    (sio.blksz ≤ sz → sio.endp - sio.pos < truncBlk sz sio.blksz →
      U64 - 1 - sio.pos < truncBlk sz sio.blksz →
      seekio_write bkg sio sz = (sio, .error .EINVAL)) := by
  have hsub : u64sub sio.endp sio.pos = sio.endp - sio.pos :=
    u64sub_of_le _ _ hpe he
  have hclamp : (if u64sub sio.endp sio.pos < sz then u64sub sio.endp sio.pos
      else sz) = min sz (sio.endp - sio.pos) := by
    rw [hsub]
    split <;> omega
  refine ⟨?_, ?_, ?_, ?_, ?_, ?_, ?_, ?_⟩
  · intro h0
    simp only [seekio_read]
    rw [hclamp, if_pos h0]
  · intro hpos hsmall
    simp only [seekio_read]
    rw [hclamp, if_neg (by omega), if_pos hsmall]
  · intro hge
    constructor
    · intro n hn
      simp only [seekio_read]
      rw [hclamp, if_neg (by omega), if_neg (by omega), hn]
    · intro e h069
      simp only [seekio_read]
      rw [hclamp, if_neg (by omega), if_neg (by omega), h069]
      rfl
  · intro hpos hsmall
    simp only [seekio_write]
    rw [if_neg (by omega), if_pos hsmall]
  · intro hge hfit
    have hnogrow : ¬ (u64sub sio.endp sio.pos < truncBlk sz sio.blksz) := by
      rw [hsub]; omega
    constructor
    · intro n hn
      simp only [seekio_write]
      rw [if_neg (by omega), if_neg (by omega)]
      rw [if_neg hnogrow]
      simp [hn]
    · intro e hwe
      simp only [seekio_write]
      rw [if_neg (by omega), if_neg (by omega)]
      rw [if_neg hnogrow]
      simp [hwe]
  · intro hge hgrow hnoovf hse
    have hgrow' : u64sub sio.endp sio.pos < truncBlk sz sio.blksz := by
      rw [hsub]; omega
    constructor
    · intro n hn
      simp only [seekio_write]
      rw [if_neg (by omega), if_neg (by omega), if_pos hgrow',
        if_neg (show ¬ (U64 - 1 - sio.pos < truncBlk sz sio.blksz) by omega),
        hse]
      simp [hn]
    · intro e hwe
      simp only [seekio_write]
      rw [if_neg (by omega), if_neg (by omega), if_pos hgrow',
        if_neg (show ¬ (U64 - 1 - sio.pos < truncBlk sz sio.blksz) by omega),
        hse]
      simp [hwe]
  · intro hge hgrow hnoovf e hse
    have hgrow' : u64sub sio.endp sio.pos < truncBlk sz sio.blksz := by
      rw [hsub]; omega
    simp only [seekio_write]
    rw [if_neg (by omega), if_neg (by omega), if_pos hgrow',
      if_neg (show ¬ (U64 - 1 - sio.pos < truncBlk sz sio.blksz) by omega),
      hse]
  · intro hge hgrow hovf
    have hgrow' : u64sub sio.endp sio.pos < truncBlk sz sio.blksz := by
      rw [hsub]; omega
    simp only [seekio_write]
    rw [if_neg (by omega), if_neg (by omega), if_pos hgrow', if_pos hovf]

/-- Witness for `seekio_cursor_semantics` at a concrete wrapper
(`pos = 512`, `end = 2048`, `blksz = 512`) whose backing read returns
512 bytes: the cursor moves from 512 to 1024. -/
theorem seekio_cursor_semantics_witness :
    seekio_read
      { readat := fun _ _ => .ok 512, writeat := fun _ _ => .ok 512,
        setend := fun _ => .ok () }
      { pos := 512, endp := 2048, blksz := 512 } 512 =
      ({ pos := 1024, endp := 2048, blksz := 512 }, .ok 512) := by
  have h := (seekio_cursor_semantics
    { readat := fun _ _ => .ok 512, writeat := fun _ _ => .ok 512,
      setend := fun _ => .ok () }
    { pos := 512, endp := 2048, blksz := 512 } 512
    (by decide) (by decide) (by decide)).2.2.1
  have h2 := (h (by decide)).1 512 rfl
  simpa using h2

/-! ## Reentrant lock (thread.c: `lock_init` / `lock_acquire` /
`lock_release`)

A lock holds an owner (`none` = free), a recursion count, and a release
condition; each thread keeps the head-inserted `lock_list` of locks it
owns.  `lock_acquire` either increments the count (already owner) or
waits until the owner is `none` and then takes ownership, splicing the
lock onto the caller's list; `lock_release` asserts ownership,
decrements when `count > 1`, and otherwise clears ownership, unlinks
the lock from the caller's list and broadcasts the condition. -/

/-- State of one `struct lock` (the condition's waiter bookkeeping is
not needed for the invariant: broadcast wakes all waiters, who re-check
`owner` inside the wait loop of `lock_acquire`). -/
structure LockSt where
  owner : Option Nat
  count : Nat
  deriving DecidableEq, Repr

/-- The lock world: every lock's state plus each thread's `lock_list`
of held locks (represented by lock ids; head = most recently
acquired). -/
structure LockWorld where
  locks : Nat → LockSt
  held : Nat → List Nat

/-- `lock_init`. -/
def lock_init_st : LockSt := { owner := none, count := 0 }

/-- All locks initialized (`lock_init`), all held-lists empty. -/
def lockWorld0 : LockWorld :=
  { locks := fun _ => lock_init_st, held := fun _ => [] }

/-- `lock_acquire(lock)` executed by thread `t` to completion.  `none`
means the caller blocks in the `condition_wait` loop because another
thread owns the lock (no state change yet); reentrant acquisition
increments the count; acquisition of a free lock takes ownership with
count 1 and head-inserts the lock into the caller's `lock_list`. -/
def lock_acquire (w : LockWorld) (t l : Nat) : Option LockWorld :=
  if (w.locks l).owner = some t then
    some { w with
      locks := Function.update w.locks l
                 ({ w.locks l with count := (w.locks l).count + 1 }) }
  else if (w.locks l).owner = none then
    some { locks := Function.update w.locks l ({ owner := some t, count := 1 }),
           held := Function.update w.held t (l :: w.held t) }
  else none

/-- `lock_release(lock)` executed by thread `t`.  `none` models the
`assert(lock->owner == TP)` failing.  With `count > 1` the count is
decremented; otherwise ownership is cleared, the first occurrence of
the lock is unlinked from the caller's `lock_list`, and the release
condition is broadcast (waking the waiters, who observe the state
returned here). -/
def lock_release (w : LockWorld) (t l : Nat) : Option LockWorld :=
  if (w.locks l).owner ≠ some t then none
  else if 1 < (w.locks l).count then
    some { w with
      locks := Function.update w.locks l
                 ({ w.locks l with count := (w.locks l).count - 1 }) }
  else
    some { locks := Function.update w.locks l ({ owner := none, count := 0 }),
           held := Function.update w.held t ((w.held t).erase l) }

/-- Client operations on the lock world (locks are initialized once, in
`lockWorld0`). -/
inductive LockOp where
  | acquire (t l : Nat)
  | release (t l : Nat)

/-- One step; a blocked acquire or a failed ownership assert leaves the
state unchanged (the calling thread has not proceeded). -/
def lockStep (w : LockWorld) (op : LockOp) : LockWorld :=
  match op with
  | .acquire t l => (lock_acquire w t l).getD w
  | .release t l => (lock_release w t l).getD w

/-- Run a sequence of lock operations from the initial world. -/
def lockRun (ops : List LockOp) : LockWorld :=
  ops.foldl lockStep lockWorld0

/-- Reachability invariant: `count > 0 ⇔ owner ≠ none`; a held lock is
linked on its owner's held-locks list; a linked lock is owned by that
thread; and no list links the same lock twice. -/
def lockWf (w : LockWorld) : Prop :=
  ∀ l, (0 < (w.locks l).count ↔ (w.locks l).owner ≠ none) ∧
    (∀ t, (w.locks l).owner = some t → l ∈ w.held t) ∧
    (∀ t, l ∈ w.held t → (w.locks l).owner = some t) ∧
    (∀ t, (w.held t).count l ≤ 1)

theorem lock_acquire_wf (w : LockWorld) (t l : Nat) (h : lockWf w)
    (w' : LockWorld) (hw : lock_acquire w t l = some w') : lockWf w' := by
  unfold lock_acquire at hw
  split at hw
  · -- reentrant acquisition: count incremented, owner and lists unchanged
    rename_i hown
    cases hw
    intro l'
    obtain ⟨h1, h2, h3, h4⟩ := h l'
    by_cases hl : l' = l
    · subst hl
      refine ⟨?_, ?_, ?_, h4⟩
      · simp [Function.update_same, hown]
      · intro t' ht'
        simp only [Function.update_same] at ht'
        exact h2 t' ht'
      · intro t' ht'
        simp only [Function.update_same]
        exact h3 t' ht'
    · simp only [Function.update_noteq hl]
      exact ⟨h1, h2, h3, h4⟩
  · split at hw
    · -- acquisition of a free lock
      rename_i hown hfree
      cases hw
      intro l'
      obtain ⟨h1, h2, h3, h4⟩ := h l'
      by_cases hl : l' = l
      · subst hl
        have hnomem : ∀ u, l' ∉ w.held u := by
          intro u hmem
          have := h3 u hmem
          rw [hfree] at this
          cases this
        simp only [Function.update_same]
        refine ⟨by simp, ?_, ?_, ?_⟩
        · intro t' ht'
          have htt : t = t' := by simpa using ht'
          subst htt
          simp only [Function.update_same]
          simp
        · intro t' ht'
          by_cases htt : t' = t
          · subst htt; simp
          · simp only [Function.update_noteq htt] at ht'
            exact absurd ht' (hnomem t')
        · intro t'
          by_cases htt : t' = t
          · subst htt
            simp only [Function.update_same, List.count_cons_self]
            have hz : (w.held t').count l' = 0 :=
              List.count_eq_zero.mpr (hnomem t')
            omega
          · simp only [Function.update_noteq htt]
            exact h4 t'
      · simp only [Function.update_noteq hl]
        refine ⟨h1, ?_, ?_, ?_⟩
        · intro t' ht'
          by_cases htt : t' = t
          · subst htt
            simp only [Function.update_same]
            exact List.mem_cons_of_mem _ (h2 t' ht')
          · simp only [Function.update_noteq htt]
            exact h2 t' ht'
        · intro t' ht'
          by_cases htt : t' = t
          · subst htt
            simp only [Function.update_same] at ht'
            rcases List.mem_cons.mp ht' with hceq | hmem
            · exact absurd hceq hl
            · exact h3 t' hmem
          · simp only [Function.update_noteq htt] at ht'
            exact h3 t' ht'
        · intro t'
          by_cases htt : t' = t
          · subst htt
            simp only [Function.update_same]
            rw [List.count_cons_of_ne hl]
            exact h4 t'
          · simp only [Function.update_noteq htt]
            exact h4 t'
    · exact absurd hw (by simp)

theorem lock_release_wf (w : LockWorld) (t l : Nat) (h : lockWf w)
    (w' : LockWorld) (hw : lock_release w t l = some w') : lockWf w' := by
  unfold lock_release at hw
  split at hw
  · exact absurd hw (by simp)
  · rename_i hown
    push_neg at hown
    split at hw
    · -- count > 1: decrement only
      rename_i hcnt
      cases hw
      intro l'
      obtain ⟨h1, h2, h3, h4⟩ := h l'
      by_cases hl : l' = l
      · subst hl
        refine ⟨?_, ?_, ?_, h4⟩
        · simp only [Function.update_same]
          rw [hown]
          constructor
          · intro _; simp
          · intro _; omega
        · intro t' ht'
          simp only [Function.update_same] at ht'
          exact h2 t' ht'
        · intro t' ht'
          simp only [Function.update_same]
          exact h3 t' ht'
      · simp only [Function.update_noteq hl]
        exact ⟨h1, h2, h3, h4⟩
    · -- final release: clear ownership, unlink from the held list
      rename_i hcnt
      cases hw
      intro l'
      obtain ⟨h1, h2, h3, h4⟩ := h l'
      by_cases hl : l' = l
      · subst hl
        simp only [Function.update_same]
        refine ⟨by simp, ?_, ?_, ?_⟩
        · intro t' ht'
          cases ht'
        · intro t' ht'
          by_cases htt : t' = t
          · subst htt
            simp only [Function.update_same] at ht'
            exfalso
            have hcl := List.count_erase_self l' (w.held t')
            have hpos : 0 < ((w.held t').erase l').count l' :=
              List.count_pos_iff.mpr ht'
            have := h4 t'
            omega
          · simp only [Function.update_noteq htt] at ht'
            have := h3 t' ht'
            rw [hown] at this
            cases this
            exact absurd rfl htt
        · intro t'
          by_cases htt : t' = t
          · subst htt
            simp only [Function.update_same]
            have hcl := List.count_erase_self l' (w.held t')
            have := h4 t'
            omega
          · simp only [Function.update_noteq htt]
            exact h4 t'
      · simp only [Function.update_noteq hl]
        refine ⟨h1, ?_, ?_, ?_⟩
        · intro t' ht'
          by_cases htt : t' = t
          · subst htt
            simp only [Function.update_same]
            exact (List.mem_erase_of_ne hl).mpr (h2 t' ht')
          · simp only [Function.update_noteq htt]
            exact h2 t' ht'
        · intro t' ht'
          by_cases htt : t' = t
          · subst htt
            simp only [Function.update_same] at ht'
            exact h3 t' (List.mem_of_mem_erase ht')
          · simp only [Function.update_noteq htt] at ht'
            exact h3 t' ht'
        · intro t'
          by_cases htt : t' = t
          · subst htt
            simp only [Function.update_same]
            calc ((w.held t').erase l).count l' ≤ (w.held t').count l' :=
                  (List.erase_sublist l (w.held t')).count_le l'
              _ ≤ 1 := h4 t'
          · simp only [Function.update_noteq htt]
            exact h4 t'

theorem lockStep_wf (w : LockWorld) (op : LockOp) (h : lockWf w) :
    lockWf (lockStep w op) := by
  cases op with
  | acquire t l =>
      simp only [lockStep]
      cases hw : lock_acquire w t l with
      | none => simpa using h
      | some w' => simpa using lock_acquire_wf w t l h w' hw
  | release t l =>
      simp only [lockStep]
      cases hw : lock_release w t l with
      | none => simpa using h
      | some w' => simpa using lock_release_wf w t l h w' hw

theorem lockRun_wf (ops : List LockOp) : lockWf (lockRun ops) := by
  unfold lockRun
  induction ops using List.reverseRecOn with
  | nil =>
      intro l'
      simp [lockWorld0, lock_init_st]
  | append_singleton lops op ih =>
      rw [List.foldl_append, List.foldl_cons, List.foldl_nil]
      exact lockStep_wf _ op ih

/-- C8: in every world reachable by acquire/release steps from the
initialized lock world, `count > 0 ⇔ owner ≠ none` and a held lock is
linked on its owner's held-locks list; acquire by the current owner
increments the count; release asserts ownership and decrements the
count when `count > 1`; a final release clears the owner, zeroes the
count, unlinks the lock from the releaser's held-locks list, and leaves
the lock acquirable by any other thread (the broadcast wakes them into
an empty-owner state). -/
theorem lock_invariant_and_release (ops : List LockOp) (t t' l : Nat)
    (w : LockWorld) (hw : w = lockRun ops) :
    ((0 < (w.locks l).count ↔ (w.locks l).owner ≠ none) ∧
      (∀ u, (w.locks l).owner = some u → l ∈ w.held u)) ∧
    ((w.locks l).owner = some t →
      ∃ w', lock_acquire w t l = some w' ∧
        (w'.locks l).count = (w.locks l).count + 1) ∧
    ((w.locks l).owner = some t → 1 < (w.locks l).count →
      ∃ w', lock_release w t l = some w' ∧
        (w'.locks l).count = (w.locks l).count - 1 ∧
        (w'.locks l).owner = some t) ∧
    ((w.locks l).owner = some t → (w.locks l).count = 1 →
      ∃ w', lock_release w t l = some w' ∧
        (w'.locks l).owner = none ∧ (w'.locks l).count = 0 ∧
        l ∉ w'.held t ∧ (lock_acquire w' t' l).isSome) := by
  have hinv : lockWf w := hw ▸ lockRun_wf ops
  obtain ⟨h1, h2, h3, h4⟩ := hinv l
  refine ⟨⟨h1, h2⟩, ?_, ?_, ?_⟩
  · intro hown
    refine ⟨{ w with
        locks := Function.update w.locks l
                   ({ w.locks l with count := (w.locks l).count + 1 }) },
      ?_, ?_⟩
    · unfold lock_acquire
      rw [if_pos hown]
    · simp [Function.update_same]
  · intro hown hcnt
    refine ⟨{ w with
        locks := Function.update w.locks l
                   ({ w.locks l with count := (w.locks l).count - 1 }) },
      ?_, ?_, ?_⟩
    · unfold lock_release
      rw [if_neg (by simp [hown]), if_pos hcnt]
    · simp [Function.update_same]
    · simp [Function.update_same, hown]
  · intro hown hcnt
    refine ⟨{ locks := Function.update w.locks l
                        ({ owner := none, count := 0 }),
                held := Function.update w.held t ((w.held t).erase l) },
      ?_, ?_, ?_, ?_, ?_⟩
    · unfold lock_release
      rw [if_neg (by simp [hown]), if_neg (by omega)]
    · simp [Function.update_same]
    · simp [Function.update_same]
    · simp only [Function.update_same]
      intro hmem
      have hcl := List.count_erase_self l (w.held t)
      have hpos : 0 < ((w.held t).erase l).count l :=
        List.count_pos_iff.mpr hmem
      have := h4 t
      omega
    · simp [lock_acquire, Function.update_same]

/-- Witness for `lock_invariant_and_release`: after thread 1 acquires
lock 0 twice, the owner is thread 1 with count 2; the theorem then
yields a release decrementing the count to 1. -/
theorem lock_invariant_and_release_witness :
    let ops : List LockOp := [.acquire 1 0, .acquire 1 0]
    let w := lockRun ops
    ((lockRun ops).locks 0).owner = some 1 ∧
    1 < ((lockRun ops).locks 0).count ∧
    ∃ w', lock_release w 1 0 = some w' ∧
      (w'.locks 0).count = (w.locks 0).count - 1 ∧
      (w'.locks 0).owner = some 1 := by
  refine ⟨rfl, by decide, ?_⟩
  exact (lock_invariant_and_release [.acquire 1 0, .acquire 1 0] 1 2 0
    (lockRun [.acquire 1 0, .acquire 1 0]) rfl).2.2.1 rfl (by decide)

/-! ## Sv39 page tables (memory.c)

Three homogeneous levels of 512-entry tables.  A table is a list of 512
entries; an entry is invalid, a leaf (with RISC-V permission flags and
a physical page number), or a pointer to a child table carrying the
global flag (`ptab_pte(pt, g_flag)` sets only `g|V`).  Physical memory
is a byte map per physical page plus a bump allocator for fresh pages
(`alloc_phys_pages` panics instead of failing, so allocation always
succeeds in the model). -/

def PAGE_SIZE : Nat := 4096

def PTE_CNT : Nat := 512

/-- RISC-V PTE flag bits (riscv.h; ISA-defined). -/
structure Flags where
  r : Bool
  w : Bool
  x : Bool
  u : Bool
  g : Bool
  a : Bool
  d : Bool
  v : Bool
  deriving DecidableEq, Repr

/-- An rwxu(g) permission argument with the other bits clear. -/
def mkFlags (r w x u : Bool) : Flags :=
  { r := r, w := w, x := x, u := u, g := false, a := false, d := false,
    v := false }

/-- `(p.flags & m) == m`: every bit set in `m` is set in `p`. -/
def flagsSuperset (p m : Flags) : Bool :=
  (!m.r || p.r) && (!m.w || p.w) && (!m.x || p.x) && (!m.u || p.u) &&
  (!m.g || p.g) && (!m.a || p.a) && (!m.d || p.d) && (!m.v || p.v)

/-- `leaf_pte(pp, rwxug_flags)`: flags = `rwxug | A | D | V`. -/
def leaf_pte_flags (f : Flags) : Flags :=
  { f with a := true, d := true, v := true }

/-- `p.flags & (PTE_R|PTE_W|PTE_X|PTE_U)` (used when cloning a leaf). -/
def rwxuMask (f : Flags) : Flags :=
  mkFlags f.r f.w f.x f.u

/-- A page-table entry together with the subtree it points to.  `tab g
ents` is a `ptab_pte` entry with the global flag `g` and the 512
entries of the child table inline (pointer sharing in C corresponds to
keeping the same physical page numbers in the shared subtree). -/
inductive PTree where
  | inv
  | leaf (flags : Flags) (ppn : Nat)
  | tab (g : Bool) (ents : List PTree)
  deriving Repr

/-- `VPN(vma)` and the per-level index macros `VPN2/VPN1/VPN0`. -/
def VPN (vma : Nat) : Nat := vma / PAGE_SIZE

def VPN2 (vma : Nat) : Nat := (VPN vma >>> (2 * 9)) % PTE_CNT

def VPN1 (vma : Nat) : Nat := (VPN vma >>> (1 * 9)) % PTE_CNT

def VPN0 (vma : Nat) : Nat := (VPN vma >>> (0 * 9)) % PTE_CNT

/-- `wellformed(vma)`: bits 63:38 all zero or all one. -/
def wellformed (vma : Nat) : Bool :=
  (vma >>> 38 == 0) || (vma >>> 38 == 2 ^ 26 - 1)

/-- Physical memory: fresh-page bump allocator plus page contents. -/
structure Mem where
  nextFree : Nat
  pages : Nat → Nat → Nat

/-- A freshly allocated, zeroed table (the C allocates a page and
`memset`s it to 0). -/
def emptyTable : List PTree := List.replicate PTE_CNT .inv

/-- Entry lookup in a table (list position = array index). -/
def entAt (ents : List PTree) (i : Nat) : PTree := ents.getD i .inv

/-- 4 KiB translation through the three levels: the flags and physical
page number the active space maps `vma` to, if any. -/
def lookup4K (root : List PTree) (vma : Nat) : Option (Flags × Nat) :=
  match entAt root (VPN2 vma) with
  | .tab _ l1 =>
      match entAt l1 (VPN1 vma) with
      | .tab _ l0 =>
          match entAt l0 (VPN0 vma) with
          | .leaf f ppn => some (f, ppn)
          | _ => none
      | _ => none
  | _ => none

/-- The `if (!PTE_VALID(...))` step of `map_page` at one intermediate
level: an invalid entry is replaced by `ptab_pte(new_table, PTE_G)`
over a freshly allocated, zeroed table page; a table entry is followed;
a leaf would be misinterpreted as a table (`none` = that undefined
dereference). -/
def ptabStep (st : Mem) (e : PTree) : Option (Bool × List PTree × Mem) :=
  match e with
  | .inv => some (true, emptyTable, { st with nextFree := st.nextFree + 1 })
  | .tab g c => some (g, c, st)
  | .leaf _ _ => none

/-- `map_page(vma, pp, rwxug_flags)` (memory.c): walk the three levels,
allocating a zeroed child table with `ptab_pte(new, PTE_G)` — note the
global flag — whenever an intermediate entry is invalid, then install
`leaf_pte(pp, flags)` at level 0.  The `Mem` tracks the pages allocated
for new intermediate tables. -/
def map_page (st : Mem) (root : List PTree) (vma ppn : Nat) (f : Flags) :
    Option (List PTree × Mem) :=
  match ptabStep st (entAt root (VPN2 vma)) with
  | none => none
  | some (g2, l1, st1) =>
      match ptabStep st1 (entAt l1 (VPN1 vma)) with
      | none => none
      | some (g1, l0, st2) =>
          match entAt l0 (VPN0 vma) with
          | .tab _ _ => none
          | _ =>
              some (root.set (VPN2 vma) (.tab g2 (l1.set (VPN1 vma)
                      (.tab g1 (l0.set (VPN0 vma)
                        (.leaf (leaf_pte_flags f) ppn))))),
                    st2)

/-- RISC-V scause values for user page faults (riscv.h; ISA-defined). -/
def RISCV_SCAUSE_INSTR_PAGE_FAULT : Nat := 12

def RISCV_SCAUSE_LOAD_PAGE_FAULT : Nat := 13

def RISCV_SCAUSE_STORE_PAGE_FAULT : Nat := 15

/-- `UMEM_START_VMA` / `UMEM_END_VMA`.  Modelled from the spec: the
user half of the address space lies between `UMEM_START` and
`UMEM_END` (conf.h is not in the source tree; the values here satisfy
the properties the code relies on: page alignment and canonical
addresses with bits 63:38 clear). -/
def UMEM_START_VMA : Nat := 0xC0000000

def UMEM_END_VMA : Nat := 0x100000000

def ROUND_DOWN (n k : Nat) : Nat := n / k * k

def ROUND_UP (n k : Nat) : Nat := (n + k - 1) / k * k

/-- `handle_umode_page_fault(tfr, vma)` (memory.c, the complete variant
with the `memset`): outside `[UMEM_START_VMA, UMEM_END_VMA)` return 0
(unhandled) without touching anything; otherwise round the address
down to a page boundary, pick flags `U|R` plus `W` exactly on a store
fault and `X` exactly on an instruction fetch fault (from `scause`),
allocate a physical page, zero it, map it with `map_page`, and return
1.  `none` = the `map_page` walk hit a malformed table. -/
def handle_umode_page_fault (st : Mem) (root : List PTree)
    (vma cause : Nat) : Option (Nat × List PTree × Mem) :=
  if vma < UMEM_START_VMA ∨ UMEM_END_VMA ≤ vma then
    some (0, root, st)
  else
    let vma' := ROUND_DOWN vma PAGE_SIZE
    let flags := mkFlags true (cause == RISCV_SCAUSE_STORE_PAGE_FAULT)
      (cause == RISCV_SCAUSE_INSTR_PAGE_FAULT) true
    let p := st.nextFree
    let st1 : Mem := { nextFree := p + 1,
                       pages := Function.update st.pages p (fun _ => 0) }
    match map_page st1 root vma' p flags with
    | none => none
    | some (root', st2) => some (1, root', st2)

/-! ## `clone_active_mspace` (memory.c, complete variant with
`clone_ptab`)

`clone_ptab(old, lvl)` allocates a zeroed table page and walks the 512
entries: invalid entries are skipped; an entry with the global flag is
copied verbatim (the subtree stays shared); a non-leaf entry is cloned
recursively into a fresh table; a leaf at level > 0 (mega/gigapage) is
shared; a 4 KiB leaf gets a freshly allocated page holding a copy of
the 4096 bytes, with flags `(old & R|W|X|U) | A|D|V`. -/

mutual

/-- Clone one entry of a table at level `lvl`. -/
def clonePTree (lvl : Nat) (t : PTree) (st : Mem) : PTree × Mem :=
  match t with
  | .inv => (.inv, st)
  | .leaf f ppn =>
      if f.g then (.leaf f ppn, st)            -- global: copy verbatim
      else if 0 < lvl then (.leaf f ppn, st)   -- large page: share
      else
        -- 4 KiB leaf: fresh data page, 4096 bytes copied
        let p := st.nextFree
        (.leaf (leaf_pte_flags (rwxuMask f)) p,
         { nextFree := p + 1,
           pages := Function.update st.pages p (st.pages ppn) })
  | .tab g ents =>
      if g then (.tab g ents, st)              -- global: copy verbatim
      else
        -- non-leaf: fresh table page, recurse one level down
        let st1 : Mem := { st with nextFree := st.nextFree + 1 }
        let (ents', st2) := cloneTable (lvl - 1) ents st1
        (.tab g ents', st2)

/-- Clone the entries of one table whose entries sit at level `lvl`. -/
def cloneTable (lvl : Nat) (l : List PTree) (st : Mem) :
    List PTree × Mem :=
  match l with
  | [] => ([], st)
  | t :: rest =>
      let (t', st') := clonePTree lvl t st
      let (rest', st'') := cloneTable lvl rest st'
      (t' :: rest', st'')

end

/-- `clone_active_mspace()`: allocate a fresh root table page and clone
the root's entries at `ROOT_LEVEL = 2` (the asid bookkeeping does not
affect the mapping). -/
def clone_active_mspace (st : Mem) (root : List PTree) :
    List PTree × Mem :=
  let st1 : Mem := { st with nextFree := st.nextFree + 1 }
  cloneTable 2 root st1

/-! ## `validate_vptr` (memory.c, complete variant) -/

/-- One page check of the `validate_vptr` loop: walk the three levels;
a missing (invalid) entry at any level is `EACCESS`; the level-0 PTE
must be valid and contain every requested flag bit.  (An intermediate
*leaf* would be dereferenced as a table by the C; here it fails the
walk.  A `ptab_pte` found at level 0 carries only `g|V`, so it is
checked like a PTE with those flags.) -/
def checkPage (root : List PTree) (addr : Nat) (mask : Flags) : Bool :=
  match entAt root (VPN2 addr) with
  | .tab _ l1 =>
      match entAt l1 (VPN1 addr) with
      | .tab _ l0 =>
          match entAt l0 (VPN0 addr) with
          | .leaf f _ => flagsSuperset f mask
          | .tab g _ =>
              flagsSuperset { mkFlags false false false false with
                g := g, v := true } mask
          | .inv => false
      | _ => false
  | _ => false

/-- The page loop of `validate_vptr`, `n` pages starting at `addr`. -/
def validatePages (root : List PTree) (addr n : Nat) (mask : Flags) :
    Except Err Unit :=
  match n with
  | 0 => .ok ()
  | n + 1 =>
      if checkPage root addr mask then
        validatePages root (addr + PAGE_SIZE) n mask
      else .error .EACCESS

/-- `validate_vptr(p, len, rwxu_flags)`: `EINVAL` for a non-canonical
pointer or a 64-bit overflow of `p + len`, `EACCESS` when some covered
page is not mapped with at least the requested bits, 0 otherwise. -/
def validate_vptr (root : List PTree) (vp len : Nat) (mask : Flags) :
    Except Err Unit :=
  if ¬ wellformed vp then .error .EINVAL
  else
    let endv := (vp + len) % U64
    if endv < vp then .error .EINVAL
    else
      let pageStart := ROUND_DOWN vp PAGE_SIZE
      let pageEnd := ROUND_UP endv PAGE_SIZE
      validatePages root pageStart ((pageEnd - pageStart) / PAGE_SIZE) mask

/-! ## Syscall argument validation (syscall.c, complete variant)

`sysread` / `syswrite` check the user buffer with `validate_vptr`
before invoking the descriptor's read/write (which dereferences the
buffer); the descriptor I/O itself is an external collaborator and is
abstracted to its outcome.  `syspipe` (the complete variant at
syscall.c:410) checks its two result pointers only against NULL and
then stores the allocated descriptor numbers through them — with no
`validate_vptr` call, there is no page-table argument at all. -/

def PROCESS_IOMAX : Nat := 16

/-- `sysread(fd, buf, bufsz)`: `EBADFD` when the descriptor slot is
empty; then `validate_vptr(buf, bufsz, PTE_U|PTE_R)`, returning the
negated error on failure; otherwise the descriptor's `read` runs.  The
second component records whether the descriptor I/O (which accesses
the user buffer) was invoked. -/
def sysread (root : List PTree) (io : Option (Except Err Nat))
    (buf bufsz : Nat) : Except Err Nat × Bool :=
  match io with
  | none => (.error .EBADFD, false)
  | some r =>
      match validate_vptr root buf bufsz (mkFlags true false false true) with
      | .error e => (.error e, false)
      | .ok () => (r, true)

/-- `syswrite(fd, buf, len)`: as `sysread` but the buffer is checked
with `PTE_U|PTE_W` (the code's choice), then the write path runs. -/
def syswrite (root : List PTree) (io : Option (Except Err Nat))
    (buf len : Nat) : Except Err Nat × Bool :=
  match io with
  | none => (.error .EBADFD, false)
  | some r =>
      match validate_vptr root buf len (mkFlags false true false true) with
      | .error e => (.error e, false)
      | .ok () => (r, true)

/-- `syspipe(wfdptr, rfdptr)`: NULL checks, `create_pipe`, then the two
lowest free descriptor slots (the second skipping the first); `EMFILE`
when either search fails; otherwise the slots are filled and the two
descriptor numbers are STORED through the user pointers.  `stores`
lists the user addresses written to; no page table is consulted. -/
def syspipe (occupied : Nat → Bool) (wfdptr rfdptr : Option Nat) :
    Except Err Nat × List Nat :=
  match wfdptr, rfdptr with
  | none, _ => (.error .EINVAL, [])
  | some _, none => (.error .EINVAL, [])
  | some wp, some rp =>
      let wfd := (List.range PROCESS_IOMAX).find? (fun i => !occupied i)
      match wfd with
      | none => (.error .EMFILE, [])
      | some w =>
          match (List.range PROCESS_IOMAX).find?
              (fun i => !occupied i && i != w) with
          | none => (.error .EMFILE, [])
          | some _ => (.ok 0, [wp, rp])

/-! ### Well-formed page tables and the demand-fault theorem -/

/-- Every table reachable from an entry has exactly 512 slots. -/
inductive TablesWf : PTree → Prop where
  | inv : TablesWf .inv
  | leaf (f : Flags) (p : Nat) : TablesWf (.leaf f p)
  | tab (g : Bool) (ents : List PTree) (hlen : ents.length = PTE_CNT)
      (hsub : ∀ e ∈ ents, TablesWf e) : TablesWf (.tab g ents)

/-- A well-formed root: 512 slots, well-formed subtrees. -/
def rootWf (root : List PTree) : Prop :=
  root.length = PTE_CNT ∧ ∀ e ∈ root, TablesWf e

theorem entAt_set_self (l : List PTree) (i : Nat) (x : PTree)
    (h : i < l.length) : entAt (l.set i x) i = x := by
  simp [entAt, List.getD_eq_getElem?_getD, List.getElem?_set_self h]

theorem entAt_mem (l : List PTree) (i : Nat) (h : i < l.length) :
    entAt l i ∈ l := by
  simp only [entAt, List.getD_eq_getElem?_getD, List.getElem?_eq_getElem h,
    Option.getD_some]
  exact List.getElem_mem h

theorem VPN2_lt (vma : Nat) : VPN2 vma < PTE_CNT :=
  Nat.mod_lt _ (by norm_num [PTE_CNT])

theorem VPN1_lt (vma : Nat) : VPN1 vma < PTE_CNT :=
  Nat.mod_lt _ (by norm_num [PTE_CNT])

theorem VPN0_lt (vma : Nat) : VPN0 vma < PTE_CNT :=
  Nat.mod_lt _ (by norm_num [PTE_CNT])

theorem emptyTable_wf : emptyTable.length = PTE_CNT ∧
    ∀ e ∈ emptyTable, TablesWf e := by
  constructor
  · simp [emptyTable]
  · intro e he
    rw [emptyTable, List.mem_replicate] at he
    rw [he.2]
    exact .inv

/-- `ptabStep` hands back a 512-entry, well-formed table (either the
fresh zeroed one or a well-formed child), without touching page
contents. -/
theorem ptabStep_wf (st : Mem) (e : PTree) (hwf : TablesWf e)
    (g : Bool) (l : List PTree) (st' : Mem)
    (h : ptabStep st e = some (g, l, st')) :
    l.length = PTE_CNT ∧ (∀ e' ∈ l, TablesWf e') ∧ st'.pages = st.pages := by
  cases e with
  | inv =>
      simp only [ptabStep, Option.some.injEq, Prod.mk.injEq] at h
      obtain ⟨h1, h2, h3⟩ := h
      subst h2 h3
      exact ⟨emptyTable_wf.1, emptyTable_wf.2, rfl⟩
  | leaf f p => simp [ptabStep] at h
  | tab g' ents =>
      simp only [ptabStep, Option.some.injEq, Prod.mk.injEq] at h
      obtain ⟨h1, h2, h3⟩ := h
      subst h2 h3
      cases hwf with
      | tab _ _ hlen hsub => exact ⟨hlen, hsub, rfl⟩

/-- After a successful `map_page(vma, pp, f)`, the active space
translates `vma` to `pp` with flags `f | A|D|V`, and no page contents
changed. -/
theorem map_page_lookup (st : Mem) (root : List PTree) (vma ppn : Nat)
    (f : Flags) (hroot : rootWf root) (root' : List PTree) (st' : Mem)
    (hres : map_page st root vma ppn f = some (root', st')) :
    lookup4K root' vma = some (leaf_pte_flags f, ppn) ∧
      st'.pages = st.pages := by
  obtain ⟨hlen, hwf⟩ := hroot
  unfold map_page at hres
  cases h2 : ptabStep st (entAt root (VPN2 vma)) with
  | none => rw [h2] at hres; cases hres
  | some trip2 =>
      obtain ⟨g2, l1, st1⟩ := trip2
      rw [h2] at hres
      dsimp only at hres
      have hwf2 : TablesWf (entAt root (VPN2 vma)) :=
        hwf _ (entAt_mem root (VPN2 vma) (hlen ▸ VPN2_lt vma))
      obtain ⟨hl1len, hl1wf, hpg1⟩ := ptabStep_wf st _ hwf2 g2 l1 st1 h2
      cases h1 : ptabStep st1 (entAt l1 (VPN1 vma)) with
      | none => rw [h1] at hres; cases hres
      | some trip1 =>
          obtain ⟨g1, l0, st2⟩ := trip1
          rw [h1] at hres
          dsimp only at hres
          have hwf1 : TablesWf (entAt l1 (VPN1 vma)) :=
            hl1wf _ (entAt_mem l1 (VPN1 vma) (hl1len ▸ VPN1_lt vma))
          obtain ⟨hl0len, _, hpg2⟩ := ptabStep_wf st1 _ hwf1 g1 l0 st2 h1
          cases h0 : entAt l0 (VPN0 vma) with
          | tab g c => rw [h0] at hres; cases hres
          | inv =>
              rw [h0] at hres
              simp only [Option.some.injEq, Prod.mk.injEq] at hres
              obtain ⟨hroot', hst'⟩ := hres
              subst hroot' hst'
              refine ⟨?_, hpg2.trans hpg1⟩
              unfold lookup4K
              rw [entAt_set_self root _ _
                (by rw [hlen]; exact VPN2_lt vma)]
              dsimp only
              rw [entAt_set_self l1 _ _
                (by rw [hl1len]; exact VPN1_lt vma)]
              dsimp only
              rw [entAt_set_self l0 _ _
                (by rw [hl0len]; exact VPN0_lt vma)]
          | leaf fl pl =>
              rw [h0] at hres
              simp only [Option.some.injEq, Prod.mk.injEq] at hres
              obtain ⟨hroot', hst'⟩ := hres
              subst hroot' hst'
              refine ⟨?_, hpg2.trans hpg1⟩
              unfold lookup4K
              rw [entAt_set_self root _ _
                (by rw [hlen]; exact VPN2_lt vma)]
              dsimp only
              rw [entAt_set_self l1 _ _
                (by rw [hl1len]; exact VPN1_lt vma)]
              dsimp only
              rw [entAt_set_self l0 _ _
                (by rw [hl0len]; exact VPN0_lt vma)]

/-- C3: for a user-mode page fault at `vma` in
`[UMEM_START_VMA, UMEM_END_VMA)` on a well-formed table,
`handle_umode_page_fault` aligns the address down to a page boundary,
allocates a page whose 4096 bytes are all zero, maps it with `U` and
`R` (plus `W` exactly on a store cause, plus `X` exactly on an
instruction-fetch cause, plus the `A|D|V` bits of `leaf_pte`), and
reports handled (1); for any address outside the region it reports
unhandled (0) and changes neither the table nor memory. -/
theorem handle_umode_page_fault_spec (st : Mem) (root : List PTree)
    (vma cause : Nat) (hroot : rootWf root) :
    (vma < UMEM_START_VMA ∨ UMEM_END_VMA ≤ vma →
      handle_umode_page_fault st root vma cause = some (0, root, st)) ∧
    (UMEM_START_VMA ≤ vma → vma < UMEM_END_VMA →
      ∀ res root' st',
        handle_umode_page_fault st root vma cause = some (res, root', st') →
        res = 1 ∧
        lookup4K root' (ROUND_DOWN vma PAGE_SIZE) =
          some (leaf_pte_flags (mkFlags true
            (cause == RISCV_SCAUSE_STORE_PAGE_FAULT)
            (cause == RISCV_SCAUSE_INSTR_PAGE_FAULT) true), st.nextFree) ∧
        (∀ i, st'.pages st.nextFree i = 0)) := by
  constructor
  · intro hout
    unfold handle_umode_page_fault
    rw [if_pos hout]
  · intro hlo hhi res root' st' hres
    unfold handle_umode_page_fault at hres
    rw [if_neg (by omega)] at hres
    dsimp only at hres
    cases hmap : map_page
        { nextFree := st.nextFree + 1,
          pages := Function.update st.pages st.nextFree fun _ => 0 }
        root (ROUND_DOWN vma PAGE_SIZE) st.nextFree
        (mkFlags true (cause == RISCV_SCAUSE_STORE_PAGE_FAULT)
          (cause == RISCV_SCAUSE_INSTR_PAGE_FAULT) true) with
    | none => rw [hmap] at hres; cases hres
    | some pr =>
        obtain ⟨root'', st''⟩ := pr
        rw [hmap] at hres
        simp only [Option.some.injEq, Prod.mk.injEq] at hres
        obtain ⟨hr, hroot', hst'⟩ := hres
        subst hroot' hst'
        have hml := map_page_lookup _ root _ st.nextFree _ hroot _ _ hmap
        refine ⟨hr.symm, hml.1, ?_⟩
        intro i
        rw [hml.2]
        simp [Function.update_same]

/-- The demand-fault demo input: a store fault at `UMEM_START_VMA+10`
on the empty root table with all of memory holding byte 7. -/
def demoFault : Option (Nat × List PTree × Mem) :=
  handle_umode_page_fault { nextFree := 5, pages := fun _ _ => 7 }
    emptyTable (UMEM_START_VMA + 10) RISCV_SCAUSE_STORE_PAGE_FAULT

/-- Witness for `handle_umode_page_fault_spec`: a fault at address 10
(below the user region) is refused and changes nothing, and the
concrete in-region store fault of `demoFault` is handled with a zeroed
fresh page (ppn 5) mapped `U|R|W` at the page boundary. -/
theorem handle_umode_page_fault_spec_witness :
    handle_umode_page_fault { nextFree := 5, pages := fun _ _ => 7 }
        emptyTable 10 RISCV_SCAUSE_STORE_PAGE_FAULT =
      some (0, emptyTable, { nextFree := 5, pages := fun _ _ => 7 }) ∧
    demoFault.map (fun r => (r.1, lookup4K r.2.1 UMEM_START_VMA,
        r.2.2.pages 5 99)) =
      some (1, some (leaf_pte_flags (mkFlags true true false true), 5), 0) := by
  constructor
  · exact (handle_umode_page_fault_spec
      { nextFree := 5, pages := fun _ _ => 7 } emptyTable 10
      RISCV_SCAUSE_STORE_PAGE_FAULT
      ⟨emptyTable_wf.1, emptyTable_wf.2⟩).1
      (Or.inl (by norm_num [UMEM_START_VMA]))
  · decide

/-! ### Cloning a real user space shares, rather than copies, its pages

`map_page` creates every missing intermediate table entry with
`ptab_pte(new_table, PTE_G)`, i.e. with the global flag set, and
`clone_ptab` copies any entry whose global flag is set verbatim.  A
user space whose pages were mapped by `map_page` (as both the demand
fault handler and the ELF loader do) therefore has its whole user
subtree shared by `clone_active_mspace` instead of deep-copied. -/

set_option maxRecDepth 8192 in
/-- C1 (code evaluated at the failing input): map one user page
(`UMEM_START_VMA ↦ ppn 7`, flags `R|W|U`) into an empty root with
`map_page`, then clone.  Both the parent and the clone translate
`UMEM_START_VMA` to the same physical page 7 — the clone shares the
parent's page instead of mapping a distinct copy, because the
intermediate entries created by `map_page` carry `PTE_G` and
`clone_ptab` reproduces global entries verbatim. -/
theorem clone_active_mspace_shares_user_page :
    (map_page { nextFree := 100, pages := fun _ _ => 0 } emptyTable
        UMEM_START_VMA 7 (mkFlags true true false true)).map
      (fun pr => (lookup4K pr.1 UMEM_START_VMA,
        lookup4K (clone_active_mspace pr.2 pr.1).1 UMEM_START_VMA)) =
      some (some (leaf_pte_flags (mkFlags true true false true), 7),
            some (leaf_pte_flags (mkFlags true true false true), 7)) := by
  decide

/-! ### Syscall pointer validation: READ and WRITE check, PIPE does not -/

/-- C2 counterexample: with nothing mapped (`emptyTable`),
`validate_vptr` would reject the PIPE result pointers with `EACCESS`,
yet `syspipe` succeeds and stores the two descriptor numbers through
both user pointers — no validation happens before the dereference. -/
theorem syspipe_unvalidated_store :
    validate_vptr emptyTable UMEM_START_VMA 4
        (mkFlags false true false true) = .error .EACCESS ∧
    syspipe (fun _ => false) (some UMEM_START_VMA)
        (some (UMEM_START_VMA + 4)) =
      (.ok 0, [UMEM_START_VMA, UMEM_START_VMA + 4]) := by
  constructor
  · decide
  · rfl

/-- C2 (amended): `sysread` checks its buffer via
`validate_vptr(buf, bufsz, PTE_U|PTE_R)` and `syswrite` via
`validate_vptr(buf, len, PTE_U|PTE_W)` before the descriptor I/O that
accesses the buffer runs (a failed check returns the error with no
access); `syspipe` checks its two result pointers only against NULL
and stores the descriptor numbers through them unconditionally. -/
theorem syscall_validation_amended :
    (∀ (root : List PTree) (r : Except Err Nat) (buf n : Nat) (e : Err),
      validate_vptr root buf n (mkFlags true false false true) = .error e →
      sysread root (some r) buf n = (.error e, false)) ∧
    (∀ (root : List PTree) (r : Except Err Nat) (buf n : Nat),
      validate_vptr root buf n (mkFlags true false false true) = .ok () →
      sysread root (some r) buf n = (r, true)) ∧
    (∀ (root : List PTree) (r : Except Err Nat) (buf n : Nat) (e : Err),
      validate_vptr root buf n (mkFlags false true false true) = .error e →
      syswrite root (some r) buf n = (.error e, false)) ∧
    (∀ (root : List PTree) (r : Except Err Nat) (buf n : Nat),
      validate_vptr root buf n (mkFlags false true false true) = .ok () →
      syswrite root (some r) buf n = (r, true)) ∧
    (∀ (occupied : Nat → Bool) (wp rp : Nat),
      occupied 0 = false → occupied 1 = false →
      syspipe occupied (some wp) (some rp) = (.ok 0, [wp, rp])) := by
  refine ⟨?_, ?_, ?_, ?_, ?_⟩
  · intro root r buf n e hv
    unfold sysread
    rw [hv]
  · intro root r buf n hv
    unfold sysread
    rw [hv]
  · intro root r buf n e hv
    unfold syswrite
    rw [hv]
  · intro root r buf n hv
    unfold syswrite
    rw [hv]
  · intro occupied wp rp h0 h1
    unfold syspipe
    have hr : List.range PROCESS_IOMAX =
        [0, 1, 2, 3, 4, 5, 6, 7, 8, 9, 10, 11, 12, 13, 14, 15] := rfl
    rw [hr]
    have hf1 : List.find? (fun i => !occupied i)
        [0, 1, 2, 3, 4, 5, 6, 7, 8, 9, 10, 11, 12, 13, 14, 15] = some 0 :=
      List.find?_cons_of_pos _ (by simp [h0])
    rw [hf1]
    dsimp only
    have hf2 : List.find? (fun i => !occupied i && i != 0)
        [0, 1, 2, 3, 4, 5, 6, 7, 8, 9, 10, 11, 12, 13, 14, 15] = some 1 := by
      rw [List.find?_cons_of_neg _ (by simp)]
      exact List.find?_cons_of_pos _ (by simp [h1])
    rw [hf2]

/-- Witness for `syscall_validation_amended`: a read into an unmapped
buffer fails with `EACCESS` before any access, and PIPE with free
slots 0 and 1 stores through both (unchecked) pointers. -/
theorem syscall_validation_amended_witness :
    sysread emptyTable (some (.ok 5)) UMEM_START_VMA 4 =
      (.error .EACCESS, false) ∧
    syspipe (fun _ => false) (some UMEM_START_VMA)
        (some (UMEM_START_VMA + 4)) =
      (.ok 0, [UMEM_START_VMA, UMEM_START_VMA + 4]) := by
  constructor
  · exact syscall_validation_amended.1 emptyTable (.ok 5) UMEM_START_VMA 4
      .EACCESS (by decide)
  · exact syscall_validation_amended.2.2.2.2 (fun _ => false) UMEM_START_VMA
      (UMEM_START_VMA + 4) rfl rfl

/-! ## ELF loader (elf.c)

`elf_load(elfio, eptr)` reads the ELF header, validates magic and
sanity fields, then iterates the program headers, mapping each
`PT_LOAD` segment.  The file endpoint is abstracted to the outcome of
its reads: the header read, each program-header read, and each segment
payload read.  The memory side effects (`alloc_and_map_range`, the
copy, the `memset` of the BSS and `set_range_flags`) do not influence
the return value and are not modelled. -/

def EI_CLASS : Nat := 4

def EI_DATA : Nat := 5

def EI_VERSION : Nat := 6

def ELFCLASS64 : Nat := 2

def ELFDATA2LSB : Nat := 1

def EV_CURRENT : Nat := 1

def EM_RISCV : Nat := 243

def ET_EXEC : Nat := 2

def PT_LOAD : Nat := 1

/-- `struct elf64_ehdr` (fields the loader reads). -/
structure Elf64Ehdr where
  e_ident : Nat → Nat
  e_type : Nat
  e_machine : Nat
  e_entry : Nat
  e_phoff : Nat
  e_phnum : Nat

/-- `struct elf64_phdr` (fields the loader reads). -/
structure Elf64Phdr where
  p_type : Nat
  p_flags : Nat
  p_offset : Nat
  p_vaddr : Nat
  p_filesz : Nat
  p_memsz : Nat

/-- The ELF file endpoint, abstracted to its read outcomes: `none` =
short `ioreadat`. -/
structure ElfIo where
  readEhdr : Option Elf64Ehdr
  readPhdr : Nat → Option Elf64Phdr
  readSeg : Nat → Bool

/-- The magic check `\x7F E L F`. -/
def checkMagic (h : Elf64Ehdr) : Bool :=
  h.e_ident 0 == 0x7F && h.e_ident 1 == 0x45 &&
  h.e_ident 2 == 0x4C && h.e_ident 3 == 0x46

/-- The sanity checks: 64-bit, little-endian, current version, RISC-V,
type EXEC. -/
def elfSane (h : Elf64Ehdr) : Bool :=
  h.e_ident EI_CLASS == ELFCLASS64 && h.e_ident EI_DATA == ELFDATA2LSB &&
  h.e_ident EI_VERSION == EV_CURRENT && h.e_machine == EM_RISCV &&
  h.e_type == ET_EXEC

/-- One iteration of the `PT_LOAD` loop: read the program header
( EIO on a short read); skip non-`PT_LOAD` entries; reject with
`EINVAL` when `p_vaddr < UMEM_START_VMA` or the 64-bit sum
`p_vaddr + p_memsz` (wrapping) exceeds `UMEM_END_VMA` — these are the
only segment validations the code performs; then map the range and
read `p_filesz` payload bytes ( EIO on a short read). -/
def processPhdr (io : ElfIo) (i : Nat) : Except Err Unit :=
  match io.readPhdr i with
  | none => .error Err.EIO
  | some ph =>
      if ph.p_type ≠ PT_LOAD then .ok ()
      else if ph.p_vaddr < UMEM_START_VMA ∨
          UMEM_END_VMA < (ph.p_vaddr + ph.p_memsz) % U64 then
        .error .EINVAL
      else if io.readSeg i then .ok ()
      else .error Err.EIO

/-- The program-header loop, `n` headers starting at index `i`. -/
def loadPhdrs (io : ElfIo) (i n : Nat) : Except Err Unit :=
  match n with
  | 0 => .ok ()
  | n + 1 =>
      match processPhdr io i with
      | .error e => .error e
      | .ok () => loadPhdrs io (i + 1) n

/-- `elf_load(elfio, eptr)`: EIO on a short header read, `EBADFMT`
on bad magic, `EINVAL` on any other header validation failure, then
the `PT_LOAD` loop; on success the entry address is written out. -/
def elf_load (io : ElfIo) : Except Err Nat :=
  match io.readEhdr with
  | none => .error Err.EIO
  | some ehdr =>
      if ¬ checkMagic ehdr then .error .EBADFMT
      else if ¬ elfSane ehdr then .error .EINVAL
      else
        match loadPhdrs io 0 ehdr.e_phnum with
        | .error e => .error e
        | .ok () => .ok ehdr.e_entry

/-- A well-formed ELF header around a single program header. -/
def demoEhdr : Elf64Ehdr :=
  { e_ident := fun i => [0x7F, 0x45, 0x4C, 0x46, 2, 1, 1].getD i 0,
    e_type := ET_EXEC, e_machine := EM_RISCV, e_entry := 0x1000,
    e_phoff := 64, e_phnum := 1 }

/-- C4 counterexample: (a) a `PT_LOAD` header with
`p_filesz = 8192 > p_memsz = 4096` and a valid address range is
accepted (`.ok`), though the claim requires rejecting
`p_filesz > p_memsz`; (b) a header whose 64-bit sum
`p_vaddr + p_memsz` overflows (wrapping to `UMEM_START_VMA`, within
bounds) is also accepted, though the claim requires rejecting the
overflow. -/
theorem elf_load_accepts_filesz_gt_memsz :
    elf_load
      { readEhdr := some demoEhdr,
        readPhdr := fun _ => some
          { p_type := PT_LOAD, p_flags := 5, p_offset := 0,
            p_vaddr := UMEM_START_VMA, p_filesz := 8192, p_memsz := 4096 },
        readSeg := fun _ => true } = .ok 0x1000 ∧
    elf_load
      { readEhdr := some demoEhdr,
        readPhdr := fun _ => some
          { p_type := PT_LOAD, p_flags := 5, p_offset := 0,
            p_vaddr := UMEM_START_VMA, p_filesz := 0,
            p_memsz := U64 },
        readSeg := fun _ => true } = .ok 0x1000 := by
  constructor
  · rfl
  · rfl

/-- C4 (amended): `elf_load` returns EIO on a short header or
program-header or segment read, `EBADFMT` exactly on bad magic,
`EINVAL` on any other header sanity failure; for each `PT_LOAD`
program header the only validations are `UMEM_START_VMA ≤ p_vaddr`
and `(p_vaddr + p_memsz) mod 2^64 ≤ UMEM_END_VMA` (`EINVAL` on
failure) — there is no `p_filesz ≤ p_memsz` check and a wrapped sum
that lands back inside the bound is accepted. -/
theorem elf_load_validation :
    (∀ io : ElfIo, io.readEhdr = none → elf_load io = .error Err.EIO) ∧
    (∀ (io : ElfIo) (ehdr : Elf64Ehdr), io.readEhdr = some ehdr →
      checkMagic ehdr = false → elf_load io = .error .EBADFMT) ∧
    (∀ (io : ElfIo) (ehdr : Elf64Ehdr), io.readEhdr = some ehdr →
      checkMagic ehdr = true → elfSane ehdr = false →
      elf_load io = .error .EINVAL) ∧
    (∀ (io : ElfIo) (i : Nat), io.readPhdr i = none →
      processPhdr io i = .error Err.EIO) ∧
    (∀ (io : ElfIo) (i : Nat) (ph : Elf64Phdr), io.readPhdr i = some ph →
      ph.p_type = PT_LOAD →
      (ph.p_vaddr < UMEM_START_VMA ∨
        UMEM_END_VMA < (ph.p_vaddr + ph.p_memsz) % U64) →
      processPhdr io i = .error .EINVAL) ∧
    (∀ (io : ElfIo) (i : Nat) (ph : Elf64Phdr), io.readPhdr i = some ph →
      ph.p_type = PT_LOAD →
      UMEM_START_VMA ≤ ph.p_vaddr →
      (ph.p_vaddr + ph.p_memsz) % U64 ≤ UMEM_END_VMA →
      io.readSeg i = true →
      processPhdr io i = .ok ()) := by
  refine ⟨?_, ?_, ?_, ?_, ?_, ?_⟩
  · intro io h
    unfold elf_load
    rw [h]
  · intro io ehdr h hm
    unfold elf_load
    rw [h]
    simp [hm]
  · intro io ehdr h hm hs
    unfold elf_load
    rw [h]
    simp [hm, hs]
  · intro io i h
    unfold processPhdr
    rw [h]
  · intro io i ph h ht hrange
    unfold processPhdr
    rw [h]
    dsimp only
    rw [if_neg (show ¬ (ph.p_type ≠ PT_LOAD) by simp [ht]),
      if_pos hrange]
  · intro io i ph h ht h1 h2 hseg
    unfold processPhdr
    rw [h]
    dsimp only
    rw [if_neg (show ¬ (ph.p_type ≠ PT_LOAD) by simp [ht]),
      if_neg (show ¬ (ph.p_vaddr < UMEM_START_VMA ∨
        UMEM_END_VMA < (ph.p_vaddr + ph.p_memsz) % U64) by omega),
      if_pos hseg]

/-- Witness for `elf_load_validation`: a file whose magic is broken is
rejected with `EBADFMT`. -/
theorem elf_load_validation_witness :
    elf_load
      { readEhdr := some { demoEhdr with e_ident := fun _ => 0 },
        readPhdr := fun _ => none, readSeg := fun _ => false } =
      .error .EBADFMT :=
  elf_load_validation.2.1 _ { demoEhdr with e_ident := fun _ => 0 } rfl
    (by decide)

/-! ## KTFS filesystem (ktfs.c)

The on-disk layout (block 0 superblock, then `bitmap_block_count`
bitmap blocks, `inode_block_count` inode blocks, then the data area)
is modelled with typed regions: `ktfs_read_inode`/`ktfs_write_inode`
compute a block and offset inside the inode region and `memcpy` the
32-byte record, which is modelled as indexing `inodes` by inode
number; the bitmap helpers address bit `i` of the bitmap region,
modelled as `bitmap i`; `ktfs_read_data_block(blockno)` and the data
writes of `ktfs_writeat` address block `1 + bitmap_block_count +
inode_block_count + blockno`, modelled as the byte map `data blockno`.
The three regions are disjoint by the layout arithmetic, so the typed
state is faithful to the single flat device.  The cache sits between
KTFS and the device and is identified with it here: `cache_get_block`
returns the current bytes of the block and a dirty release makes the
write visible to the next get (KTFS holds the global FS lock around
every operation, so no other cache client interleaves). -/

def KTFS_BLKSZ : Nat := 512

def KTFS_INOSZ : Nat := 32

def KTFS_DENSZ : Nat := 32

def POINTER_BYTESIZE : Nat := 4

/-- Modelled from the spec: the dentry is 32 bytes, a NUL-padded name
plus a 16-bit inode number, so the name field holds 30 bytes and the
longest name is 29 characters (`ktfs.h` is not in the source tree). -/
def KTFS_MAX_FILENAME_LEN : Nat := 29

/-- Modelled from the spec: the 32-byte inode is size (4) + flags (4)
+ direct blocks (4 each) + single-indirect (4) + double-indirect (4
each), so direct + double-indirect = 5 slots (`ktfs.h` is not in the
source tree). -/
def KTFS_NUM_DIRECT_DATA_BLOCKS : Nat := 3

def KTFS_NUM_DINDIRECT_BLOCKS : Nat := 2

def KTFS_FILE_FREE : Nat := 0

def KTFS_FILE_IN_USE : Nat := 1

/-- `struct ktfs_inode`: `block` is meaningful on indices below
`KTFS_NUM_DIRECT_DATA_BLOCKS`, `dindirect` below
`KTFS_NUM_DINDIRECT_BLOCKS`. -/
structure KtfsInode where
  size : Nat
  flags : Nat
  block : Nat → Nat
  indirect : Nat
  dindirect : Nat → Nat

/-- `struct ktfs_superblock`. -/
structure KtfsSuperblock where
  block_count : Nat
  bitmap_block_count : Nat
  inode_block_count : Nat
  root_directory_inode : Nat

/-- The mounted filesystem state (typed regions over cache+device). -/
structure KtfsState where
  sb : KtfsSuperblock
  inodes : Nat → KtfsInode
  bitmap : Nat → Bool
  data : Nat → Nat → Nat

/-- `struct ktfs_file` (the `io` header is implicit). -/
structure KtfsFile where
  size : Nat
  inode_num : Nat
  flags : Nat

/-- `ktfs_read_inode(inum, out)`: block/offset arithmetic into the
inode region, then a 32-byte copy. -/
def ktfs_read_inode (st : KtfsState) (inum : Nat) : KtfsInode :=
  st.inodes inum

/-- `ktfs_write_inode(inum, ino)`: the inverse copy, released dirty. -/
def ktfs_write_inode (st : KtfsState) (inum : Nat) (ino : KtfsInode) :
    KtfsState :=
  { st with inodes := Function.update st.inodes inum ino }

/-- `ktfs_read_data_block(blockno, buf)`: the 512 bytes of data-area
block `blockno` (the C adds the metadata offset; the cache read in the
model always succeeds, so the dead EIO branch is dropped). -/
def ktfs_read_data_block (st : KtfsState) (blockno : Nat) : Nat → Nat :=
  st.data blockno

/-- Little-endian `uint32_t` number `i` inside a 512-byte block
(indirect blocks are arrays of `uint32_t`). -/
def u32le (blk : Nat → Nat) (i : Nat) : Nat :=
  blk (4 * i) + 256 * blk (4 * i + 1) + 65536 * blk (4 * i + 2) +
    16777216 * blk (4 * i + 3)

/-- The double-indirect slot loop of `get_blocknum_for_offset`,
starting at slot `i` with `n` slots remaining. -/
def dindLookup (st : KtfsState) (inode : KtfsInode) :
    Nat → Nat → Nat → Except Err Nat
  | _, _, 0 => .error .ENOENT
  | fbi, i, n + 1 =>
      let ptrs := KTFS_BLKSZ / POINTER_BYTESIZE
      if fbi < ptrs * ptrs then
        if inode.dindirect i = 0 then .error .ENOENT
        else
          let level1 := ktfs_read_data_block st (inode.dindirect i)
          let p1 := u32le level1 (fbi / ptrs)
          if p1 = 0 then .error .ENOENT
          else
            let level2 := ktfs_read_data_block st p1
            let v := u32le level2 (fbi % ptrs)
            if v ≠ 0 then .ok v else .error .ENOENT
      else dindLookup st inode (fbi - ptrs * ptrs) (i + 1) n

/-- `get_blocknum_for_offset(inode, file_block_index, out)`: direct,
then single-indirect, then the double-indirect slots; `ENOENT` when a
pointer on the path is 0. -/
def get_blocknum_for_offset (st : KtfsState) (inode : KtfsInode)
    (fbi : Nat) : Except Err Nat :=
  let ptrs := KTFS_BLKSZ / POINTER_BYTESIZE
  if fbi < KTFS_NUM_DIRECT_DATA_BLOCKS then
    if inode.block fbi ≠ 0 then .ok (inode.block fbi)
    else .error .ENOENT
  else
    let fbi1 := fbi - KTFS_NUM_DIRECT_DATA_BLOCKS
    if fbi1 < ptrs then
      if inode.indirect = 0 then .error .ENOENT
      else
        let v := u32le (ktfs_read_data_block st inode.indirect) fbi1
        if v ≠ 0 then .ok v else .error .ENOENT
    else
      dindLookup st inode (fbi1 - ptrs) 0 KTFS_NUM_DINDIRECT_BLOCKS

/-- The copy loop of `ktfs_readat`: starting at byte `total`, resolve
the covering data block of `pos + total`, read it, and copy the slice
into the output buffer, until `len` bytes are gathered. -/
def readLoop (st : KtfsState) (inode : KtfsInode) (pos len : Nat)
    (total : Nat) (out : Nat → Nat) : Except Err (Nat → Nat) :=
  if _h : total < len then
    let cur := pos + total
    let boff := cur % KTFS_BLKSZ
    let to_ := min (KTFS_BLKSZ - boff) (len - total)
    match get_blocknum_for_offset st inode (cur / KTFS_BLKSZ) with
    | .error e => .error e
    | .ok phys =>
        let blk := ktfs_read_data_block st phys
        readLoop st inode pos len (total + to_)
          (fun j => if total ≤ j ∧ j < total + to_ then blk (boff + (j - total))
                    else out j)
  else .ok out
  termination_by len - total
  decreasing_by
    have hb : (pos + total) % KTFS_BLKSZ < KTFS_BLKSZ :=
      Nat.mod_lt _ (by norm_num [KTFS_BLKSZ])
    simp only [KTFS_BLKSZ] at *
    omega

/-- `ktfs_readat(io, pos, buf, len)`: argument checks, the in-use
check, the end-of-file guard (`pos ≥ size` reads 0 bytes), the cap of
`len` at `size - pos`, then the block copy loop.  Returns the byte
count and the filled buffer. -/
def ktfs_readat (st : KtfsState) (file : KtfsFile) (pos : Nat)
    (len : Int) : Except Err (Nat × (Nat → Nat)) :=
  if len < 0 then .error .EINVAL
  else if file.flags ≠ KTFS_FILE_IN_USE then .error .EINVAL
  else if file.size ≤ pos then .ok (0, fun _ => 0)
  else
    let lenN := if file.size < pos + len.toNat then file.size - pos
                else len.toNat
    let inode := ktfs_read_inode st file.inode_num
    match readLoop st inode pos lenN 0 (fun _ => 0) with
    | .error e => .error e
    | .ok out => .ok (lenN, out)

/-- C9: `ktfs_readat` on an open (in-use) file returns 0 (success, no
bytes) for `pos ≥ file.size` rather than an error, and any successful
read returns at most `file.size - pos` bytes, so a read never observes
bytes past the recorded size. -/
theorem ktfs_readat_bounded (st : KtfsState) (file : KtfsFile)
    (pos : Nat) (len : Int) (hflags : file.flags = KTFS_FILE_IN_USE)
    (hlen : 0 ≤ len) :
    (file.size ≤ pos →
      ktfs_readat st file pos len = .ok (0, fun _ => 0)) ∧
    (∀ n out, ktfs_readat st file pos len = .ok (n, out) →
      n ≤ file.size - pos) := by
  constructor
  · intro hpos
    unfold ktfs_readat
    rw [if_neg (by omega), if_neg (by simp [hflags, KTFS_FILE_IN_USE]),
      if_pos hpos]
  · intro n out hres
    unfold ktfs_readat at hres
    rw [if_neg (by omega),
      if_neg (by simp [hflags, KTFS_FILE_IN_USE])] at hres
    by_cases hpos : file.size ≤ pos
    · rw [if_pos hpos] at hres
      simp only [Except.ok.injEq, Prod.mk.injEq] at hres
      omega
    · rw [if_neg hpos] at hres
      dsimp only at hres
      cases hloop : readLoop st (ktfs_read_inode st file.inode_num) pos
          (if file.size < pos + len.toNat then file.size - pos
           else len.toNat) 0 (fun _ => 0) with
      | error e => rw [hloop] at hres; cases hres
      | ok o =>
          rw [hloop] at hres
          simp only [Except.ok.injEq, Prod.mk.injEq] at hres
          obtain ⟨hn, _⟩ := hres
          subst hn
          split <;> omega

/-- Witness for `ktfs_readat_bounded`: a read at `pos = size = 100`
returns 0 bytes with success. -/
theorem ktfs_readat_bounded_witness :
    ktfs_readat
      { sb := { block_count := 8, bitmap_block_count := 1,
                inode_block_count := 1, root_directory_inode := 0 },
        inodes := fun _ =>
          ({ size := 100, flags := KTFS_FILE_IN_USE, block := fun _ => 0,
             indirect := 0, dindirect := fun _ => 0 } : KtfsInode),
        bitmap := fun _ => false, data := fun _ _ => 0 }
      { size := 100, inode_num := 1, flags := KTFS_FILE_IN_USE }
      100 7 = .ok (0, fun _ => 0) :=
  (ktfs_readat_bounded _ _ 100 7 rfl (by norm_num)).1 (le_refl 100)

/-! ### KTFS write path: allocation, growth, `ktfs_writeat` -/

/-- The scan of `ktfs_alloc_data_block` from bit `idx` with `n` bits
remaining (started with `sb.block_count`): skip the metadata region,
set the first clear bit, return its data-area-relative index. -/
def allocScan (st : KtfsState) : Nat → Nat → Except Err (Nat × KtfsState)
  | _, 0 => .error .ENODATABLKS
  | idx, n + 1 =>
      let base := 1 + st.sb.bitmap_block_count + st.sb.inode_block_count
      if idx < base then allocScan st (idx + 1) n
      else if st.bitmap idx = false then
        .ok (idx - base,
          { st with bitmap := Function.update st.bitmap idx true })
      else allocScan st (idx + 1) n

/-- `ktfs_alloc_data_block(&out)`. -/
def ktfs_alloc_data_block (st : KtfsState) : Except Err (Nat × KtfsState) :=
  allocScan st 0 st.sb.block_count

/-- The direct-block growth loop of `ktfs_set_end`, at file block `i`
with `n` blocks still to allocate. -/
def growLoop : KtfsState → KtfsInode → Nat → Nat →
    Except Err (KtfsState × KtfsInode)
  | st, inode, _, 0 => .ok (st, inode)
  | st, inode, i, n + 1 =>
      if KTFS_NUM_DIRECT_DATA_BLOCKS ≤ i then .error .ENODATABLKS
      else
        match ktfs_alloc_data_block st with
        | .error e => .error e
        | .ok (blkno, st') =>
            growLoop st'
              { inode with block := Function.update inode.block i blkno }
              (i + 1) n

/-- `ktfs_set_end(file, new_end)`: allocate the missing direct blocks
(only direct growth is supported), set `inode.size = new_end`, write
the inode back, update `file->size`. -/
def ktfs_set_end (st : KtfsState) (file : KtfsFile) (new_end : Nat) :
    Except Err (KtfsState × KtfsFile) :=
  let inode := ktfs_read_inode st file.inode_num
  let old_blocks := (inode.size + KTFS_BLKSZ - 1) / KTFS_BLKSZ
  let new_blocks := (new_end + KTFS_BLKSZ - 1) / KTFS_BLKSZ
  match growLoop st inode old_blocks (new_blocks - old_blocks) with
  | .error e => .error e
  | .ok (st1, inode1) =>
      .ok (ktfs_write_inode st1 file.inode_num
             { inode1 with size := new_end },
           { file with size := new_end })

/-- The `if (end_pos > file->size) ktfs_set_end(...)` prefix of
`ktfs_writeat`. -/
def writeGrow (st : KtfsState) (file : KtfsFile) (pos lenN : Nat) :
    Except Err (KtfsState × KtfsFile) :=
  if file.size < pos + lenN then ktfs_set_end st file (pos + lenN)
  else .ok (st, file)

/-- The bytes of one cached block after `memcpy(blk + boff, buf + total, to)`:
offsets in `[boff, boff+to)` come from the caller's buffer, the rest keep
their old value. -/
def writeBytes (old : Nat → Nat) (boff to_ total : Nat) (buf : Nat → Nat) :
    Nat → Nat :=
  fun o => if boff ≤ o ∧ o < boff + to_ then buf (total + (o - boff)) else old o

/-- One cache transaction of the write loop: block `p` gets the
`writeBytes` overwrite, everything else is untouched. -/
def writeStep (st : KtfsState) (p boff to_ total : Nat)
    (buf : Nat → Nat) : KtfsState :=
  { st with
      data := Function.update st.data p
                (writeBytes (st.data p) boff to_ total buf) }

/-- The copy loop of `ktfs_writeat`: resolve the data block covering
`pos + total`, fetch it through the cache, overwrite the slice
`[boff, boff+to)` with the caller's bytes and release it dirty. -/
def writeLoop (st : KtfsState) (inode : KtfsInode) (pos len : Nat)
    (buf : Nat → Nat) (total : Nat) : Except Err KtfsState :=
  if _h : total < len then
    let cur := pos + total
    let boff := cur % KTFS_BLKSZ
    let to_ := min (KTFS_BLKSZ - boff) (len - total)
    match get_blocknum_for_offset st inode (cur / KTFS_BLKSZ) with
    | .error e => .error e
    | .ok phys =>
        writeLoop (writeStep st phys boff to_ total buf)
          inode pos len buf (total + to_)
  else .ok st
  termination_by len - total
  decreasing_by
    have hb : (pos + total) % KTFS_BLKSZ < KTFS_BLKSZ :=
      Nat.mod_lt _ (by norm_num [KTFS_BLKSZ])
    simp only [KTFS_BLKSZ] at *
    omega

/-- `ktfs_writeat(io, pos, buf, len)`: argument and in-use checks,
growth via `ktfs_set_end` when the write reaches past the current
size, re-read of the inode, then the copy loop; returns the bytes
written together with the new state and file. -/
def ktfs_writeat (st : KtfsState) (file : KtfsFile) (pos : Nat)
    (len : Int) (buf : Nat → Nat) :
    Except Err (Nat × KtfsState × KtfsFile) :=
  if len < 0 then .error .EINVAL
  else if file.flags ≠ KTFS_FILE_IN_USE then .error .EINVAL
  else
    match writeGrow st file pos len.toNat with
    | .error e => .error e
    | .ok (st1, file1) =>
        let inode := ktfs_read_inode st1 file1.inode_num
        match writeLoop st1 inode pos len.toNat buf 0 with
        | .error e => .error e
        | .ok st2 => .ok (len.toNat, st2, file1)

/-- File blocks covered by an access of `len` bytes at byte offset
`pos` (empty-range degenerate when `len = 0`). -/
def blockCovered (pos len k : Nat) : Prop :=
  pos / KTFS_BLKSZ ≤ k ∧ k ≤ (pos + len - 1) / KTFS_BLKSZ

instance (pos len k : Nat) : Decidable (blockCovered pos len k) :=
  inferInstanceAs (Decidable (_ ∧ _))

/-- Shape of a successful `writeGrow`: the file keeps its inode number
and flags, and afterwards the write range fits inside the size. -/
theorem writeGrow_shape (st : KtfsState) (file : KtfsFile) (pos lenN : Nat)
    (st1 : KtfsState) (file1 : KtfsFile)
    (h : writeGrow st file pos lenN = .ok (st1, file1)) :
    file1.inode_num = file.inode_num ∧ file1.flags = file.flags ∧
    pos + lenN ≤ file1.size := by
  unfold writeGrow at h
  by_cases hc : file.size < pos + lenN
  · rw [if_pos hc] at h
    unfold ktfs_set_end at h
    dsimp only at h
    split at h
    · exact (Except.noConfusion h)
    · simp only [Except.ok.injEq, Prod.mk.injEq] at h
      obtain ⟨h1, h2⟩ := h
      subst h2
      exact ⟨rfl, rfl, le_refl _⟩
  · rw [if_neg hc] at h
    simp only [Except.ok.injEq, Prod.mk.injEq] at h
    obtain ⟨h1, h2⟩ := h
    subst h2
    exact ⟨rfl, rfl, by omega⟩

/-- Main lemma about the `ktfs_writeat` copy loop, relative to a base
state `st1` and a resolution function `phys` for the covered file
blocks: the loop succeeds, touches only the covered physical blocks,
leaves the metadata regions alone, and afterwards the written bytes
read back as the caller's buffer. -/
theorem writeLoop_spec (st1 : KtfsState) (inode : KtfsInode)
    (pos len : Nat) (buf : Nat → Nat) (phys : Nat → Nat)
    (hres : ∀ st' : KtfsState,
      (∀ b, (∀ k, blockCovered pos len k → b ≠ phys k) →
        st'.data b = st1.data b) →
      ∀ k, blockCovered pos len k →
        get_blocknum_for_offset st' inode k = .ok (phys k))
    (hinj : ∀ k k', blockCovered pos len k → blockCovered pos len k' →
      phys k = phys k' → k = k') :
    ∀ n total st, len - total ≤ n →
      (∀ b, (∀ k, blockCovered pos len k → b ≠ phys k) →
        st.data b = st1.data b) →
      st.inodes = st1.inodes → st.sb = st1.sb → st.bitmap = st1.bitmap →
      (∀ i, i < total →
        st.data (phys ((pos + i) / KTFS_BLKSZ)) ((pos + i) % KTFS_BLKSZ)
          = buf i) →
      ∃ st2, writeLoop st inode pos len buf total = .ok st2 ∧
        (∀ b, (∀ k, blockCovered pos len k → b ≠ phys k) →
          st2.data b = st1.data b) ∧
        st2.inodes = st1.inodes ∧ st2.sb = st1.sb ∧
        st2.bitmap = st1.bitmap ∧
        (∀ i, i < len →
          st2.data (phys ((pos + i) / KTFS_BLKSZ)) ((pos + i) % KTFS_BLKSZ)
            = buf i) := by
  simp only [blockCovered, KTFS_BLKSZ] at *
  intro n
  induction n with
  | zero =>
      intro total st hn hagree hins hsb hbm hdone
      refine ⟨st, ?_, hagree, hins, hsb, hbm, fun i hi => hdone i (by omega)⟩
      rw [writeLoop.eq_def, dif_neg (by omega)]
  | succ m ih =>
      intro total st hn hagree hins hsb hbm hdone
      by_cases htlt : total < len
      · have hmod : (pos + total) % 512 < 512 := Nat.mod_lt _ (by norm_num)
        have hcov : pos / 512 ≤ (pos + total) / 512 ∧
            (pos + total) / 512 ≤ (pos + len - 1) / 512 := by omega
        have hr := hres st hagree ((pos + total) / 512) hcov
        have hdone' : ∀ i,
            i < total + min (512 - (pos + total) % 512) (len - total) →
            (writeStep st (phys ((pos + total) / 512)) ((pos + total) % 512)
                (min (512 - (pos + total) % 512) (len - total)) total
                buf).data
              (phys ((pos + i) / 512)) ((pos + i) % 512) = buf i := by
          intro i hi
          simp only [writeStep]
          by_cases hcase : i < total
          · by_cases hk : (pos + i) / 512 = (pos + total) / 512
            · rw [hk, Function.update_same]
              simp only [writeBytes]
              rw [if_neg (by omega)]
              have h2 := hdone i hcase
              rw [hk] at h2
              exact h2
            · have hne : phys ((pos + i) / 512) ≠
                  phys ((pos + total) / 512) := fun he =>
                hk (hinj _ _ ⟨by omega, by omega⟩ hcov he)
              simp only [Function.update_noteq hne]
              exact hdone i hcase
          · have hk : (pos + i) / 512 = (pos + total) / 512 := by omega
            have hoff : (pos + i) % 512 = (pos + total) % 512 + (i - total) :=
              by omega
            rw [hk, Function.update_same]
            simp only [writeBytes]
            rw [if_pos (by omega)]
            congr 1
            omega
        obtain ⟨st2, h2, hfr, hin2, hsb2, hbm2, hct⟩ :=
          ih (total + min (512 - (pos + total) % 512) (len - total))
            (writeStep st (phys ((pos + total) / 512)) ((pos + total) % 512)
              (min (512 - (pos + total) % 512) (len - total)) total buf)
            (by omega)
            (by
              intro b hb
              simp only [writeStep]
              rw [Function.update_noteq (hb _ hcov)]
              exact hagree b hb)
            hins hsb hbm hdone'
        refine ⟨st2, ?_, hfr, hin2, hsb2, hbm2, hct⟩
        rw [writeLoop.eq_def, dif_pos htlt]
        simp only [KTFS_BLKSZ]
        rw [hr]
        exact h2
      · refine ⟨st, ?_, hagree, hins, hsb, hbm,
          fun i hi => hdone i (by omega)⟩
        rw [writeLoop.eq_def, dif_neg htlt]

/-- Main lemma about the `ktfs_readat` copy loop: when every covered
file block resolves to `phys`, the loop succeeds, fills position `i`
of the output with byte `pos + i` of the resolved data blocks, and
leaves positions below `total` as they were. -/
theorem readLoop_spec (st : KtfsState) (inode : KtfsInode)
    (pos len : Nat) (phys : Nat → Nat)
    (hres : ∀ k, blockCovered pos len k →
      get_blocknum_for_offset st inode k = .ok (phys k)) :
    ∀ n total out0, len - total ≤ n →
      ∃ out, readLoop st inode pos len total out0 = .ok out ∧
        (∀ i, total ≤ i → i < len →
          out i = st.data (phys ((pos + i) / KTFS_BLKSZ))
                    ((pos + i) % KTFS_BLKSZ)) ∧
        (∀ j, j < total → out j = out0 j) := by
  simp only [blockCovered, KTFS_BLKSZ] at *
  intro n
  induction n with
  | zero =>
      intro total out0 hn
      refine ⟨out0, ?_, fun i h1 h2 => absurd h2 (by omega), fun j _ => rfl⟩
      rw [readLoop.eq_def, dif_neg (by omega)]
  | succ m ih =>
      intro total out0 hn
      by_cases htlt : total < len
      · have hmod : (pos + total) % 512 < 512 := Nat.mod_lt _ (by norm_num)
        have hcov : pos / 512 ≤ (pos + total) / 512 ∧
            (pos + total) / 512 ≤ (pos + len - 1) / 512 := by omega
        have hr := hres ((pos + total) / 512) hcov
        obtain ⟨out, h2, hmid, hlow⟩ :=
          ih (total + min (512 - (pos + total) % 512) (len - total))
            (fun j => if total ≤ j ∧
                j < total + min (512 - (pos + total) % 512) (len - total)
              then st.data (phys ((pos + total) / 512))
                     ((pos + total) % 512 + (j - total))
              else out0 j)
            (by omega)
        refine ⟨out, ?_, ?_, ?_⟩
        · rw [readLoop.eq_def, dif_pos htlt]
          simp only [KTFS_BLKSZ]
          rw [hr]
          exact h2
        · intro i h1 h2
          by_cases hmidcase :
              i < total + min (512 - (pos + total) % 512) (len - total)
          · have := hlow i hmidcase
            rw [this, if_pos ⟨h1, hmidcase⟩]
            have hk : (pos + i) / 512 = (pos + total) / 512 := by omega
            have hoff : (pos + i) % 512 = (pos + total) % 512 + (i - total) :=
              by omega
            rw [hk, hoff]
          · exact hmid i (by omega) h2
        · intro j hj
          have := hlow j (by omega)
          rw [this, if_neg (by omega)]
      · refine ⟨out0, ?_, fun i h1 h2 => absurd h2 (by omega),
          fun j _ => rfl⟩
        rw [readLoop.eq_def, dif_neg htlt]

/-- C5: a `ktfs_writeat` of `lenN` bytes at `pos` on an in-use file
(with the growth phase succeeding, the covered file blocks resolving
to distinct physical data blocks `phys`, stably under changes confined
to those blocks) returns `lenN`, and an immediate `ktfs_readat` of the
same range returns `lenN` bytes equal to the bytes written. -/
theorem ktfs_writeat_readat_roundtrip
    (st st1 : KtfsState) (file file1 : KtfsFile) (pos lenN : Nat)
    (buf : Nat → Nat) (phys : Nat → Nat)
    (hflags : file.flags = KTFS_FILE_IN_USE)
    (hgrow : writeGrow st file pos lenN = .ok (st1, file1))
    (hres : ∀ st' : KtfsState,
      (∀ b, (∀ k, blockCovered pos lenN k → b ≠ phys k) →
        st'.data b = st1.data b) →
      ∀ k, blockCovered pos lenN k →
        get_blocknum_for_offset st' (ktfs_read_inode st1 file1.inode_num) k
          = .ok (phys k))
    (hinj : ∀ k k', blockCovered pos lenN k → blockCovered pos lenN k' →
      phys k = phys k' → k = k') :
    ∃ st2 out,
      ktfs_writeat st file pos (lenN : Int) buf = .ok (lenN, st2, file1) ∧
      ktfs_readat st2 file1 pos (lenN : Int) = .ok (lenN, out) ∧
      ∀ i, i < lenN → out i = buf i := by
  obtain ⟨hinum, hfl1, hsize1⟩ :=
    writeGrow_shape st file pos lenN st1 file1 hgrow
  obtain ⟨st2, hloop, hframe, hins2, hsb2, hbm2, hcontent⟩ :=
    writeLoop_spec st1 (ktfs_read_inode st1 file1.inode_num) pos lenN buf
      phys hres hinj lenN 0 st1 (by omega) (fun b _ => rfl) rfl rfl rfl
      (fun i hi => absurd hi (Nat.not_lt_zero i))
  have htn : (lenN : Int).toNat = lenN := by omega
  have hW : ktfs_writeat st file pos (lenN : Int) buf
      = .ok (lenN, st2, file1) := by
    unfold ktfs_writeat
    rw [if_neg (by omega), if_neg (by simp [hflags, KTFS_FILE_IN_USE]), htn,
      hgrow]
    dsimp only
    rw [hloop]
  have hinode2 : ktfs_read_inode st2 file1.inode_num
      = ktfs_read_inode st1 file1.inode_num := by
    unfold ktfs_read_inode
    rw [hins2]
  have hres2 : ∀ k, blockCovered pos lenN k →
      get_blocknum_for_offset st2 (ktfs_read_inode st2 file1.inode_num) k
        = .ok (phys k) := by
    intro k hk
    rw [hinode2]
    exact hres st2 hframe k hk
  by_cases h0 : lenN = 0
  · subst h0
    refine ⟨st2, fun _ => 0, hW, ?_, fun i hi => absurd hi (by omega)⟩
    unfold ktfs_readat
    rw [if_neg (by omega), if_neg (by simp [hfl1, hflags, KTFS_FILE_IN_USE])]
    by_cases hpe : file1.size ≤ pos
    · rw [if_pos hpe]
    · rw [if_neg hpe]
      dsimp only
      rw [htn, if_neg (by omega), readLoop.eq_def, dif_neg (by omega)]
  · obtain ⟨out, hrl, hout, _⟩ :=
      readLoop_spec st2 (ktfs_read_inode st2 file1.inode_num) pos lenN phys
        hres2 lenN 0 (fun _ => 0) (by omega)
    refine ⟨st2, out, hW, ?_, ?_⟩
    · unfold ktfs_readat
      rw [if_neg (by omega),
        if_neg (by simp [hfl1, hflags, KTFS_FILE_IN_USE]),
        if_neg (show ¬ file1.size ≤ pos by omega)]
      dsimp only
      rw [htn, if_neg (show ¬ file1.size < pos + lenN by omega), hrl]
    · intro i hi
      rw [hout i (Nat.zero_le i) hi]
      exact hcontent i hi

/-- A small concrete KTFS state for evaluating the round trip: one
inode whose first two direct blocks point at data blocks 1 and 2. -/
def ktfsDemoState : KtfsState :=
  { sb := { block_count := 8, bitmap_block_count := 1,
            inode_block_count := 1, root_directory_inode := 0 },
    inodes := fun _ =>
      ({ size := 1024, flags := KTFS_FILE_IN_USE,
         block := fun i => if i = 0 then 1 else if i = 1 then 2 else 0,
         indirect := 0, dindirect := fun _ => 0 } : KtfsInode),
    bitmap := fun _ => false, data := fun _ _ => 0 }

/-- The open file on `ktfsDemoState`: inode 1, 1024 bytes, in use. -/
def ktfsDemoFile : KtfsFile :=
  { size := 1024, inode_num := 1, flags := KTFS_FILE_IN_USE }

/-- Witness for `ktfs_writeat_readat_roundtrip`: a 4-byte write at
offset 510 (crossing the block boundary) reads back intact. -/
theorem ktfs_writeat_readat_roundtrip_witness :
    ∃ st2 out,
      ktfs_writeat ktfsDemoState ktfsDemoFile 510 ((4 : Nat) : Int)
          (fun i => 65 + i) = .ok (4, st2, ktfsDemoFile) ∧
      ktfs_readat st2 ktfsDemoFile 510 ((4 : Nat) : Int) = .ok (4, out) ∧
      ∀ i, i < 4 → out i = 65 + i :=
  ktfs_writeat_readat_roundtrip ktfsDemoState ktfsDemoState ktfsDemoFile
    ktfsDemoFile 510 4 (fun i => 65 + i) (fun k => k + 1) rfl rfl
    (by
      intro st' hfr k hk
      obtain ⟨hk0, hk1⟩ := hk
      have hk1' : k ≤ 1 := by
        simp only [KTFS_BLKSZ] at hk1
        omega
      interval_cases k
      · rfl
      · rfl)
    (by
      intro k k' hk hk' he
      obtain ⟨hk0, hk1⟩ := hk
      obtain ⟨hk0', hk1'⟩ := hk'
      have he' : k + 1 = k' + 1 := he
      omega)

/-! ### KTFS directory operations: `ktfs_create`, `ktfs_delete` -/

/-- Global block index of data-area block 0 (`1 + bitmap blocks +
inode blocks`, the `data_base` of ktfs.c). -/
def dataBase (st : KtfsState) : Nat :=
  1 + st.sb.bitmap_block_count + st.sb.inode_block_count

/-- One bitmap-bit write through the cache
(`ktfs_bitmap_set` / `ktfs_bitmap_clear_bit` at bit granularity). -/
def setBitmap (st : KtfsState) (i : Nat) (v : Bool) : KtfsState :=
  { st with bitmap := Function.update st.bitmap i v }

/-- `cache_get_block` + `memcpy` of a whole 512-byte block +
`cache_release_block(…, 1)` on data-area block `b`. -/
def writeDataBlock (st : KtfsState) (b : Nat) (blk : Nat → Nat) :
    KtfsState :=
  { st with data := Function.update st.data b blk }

/-- Zeroing a freshly allocated directory block. -/
def zeroBlock (st : KtfsState) (b : Nat) : KtfsState :=
  writeDataBlock st b (fun _ => 0)

/-- The NUL-terminated byte string starting at offset `base` of a
block, cut off after `fuel` bytes (a directory entry's name field is
30 bytes and is written NUL-terminated). -/
def cstrBytes (blk : Nat → Nat) : Nat → Nat → List Nat
  | _, 0 => []
  | base, n + 1 =>
      if blk base = 0 then [] else blk base :: cstrBytes blk (base + 1) n

/-- `dentries[j].name` of a directory block, as a byte list. -/
def dentName (blk : Nat → Nat) (j : Nat) : List Nat :=
  cstrBytes blk (j * KTFS_DENSZ) 30

/-- `dentries[j].inode` of a directory block (little-endian 16-bit at
bytes 30–31 of the 32-byte entry). -/
def dentInode (blk : Nat → Nat) (j : Nat) : Nat :=
  blk (j * KTFS_DENSZ + 30) + 256 * blk (j * KTFS_DENSZ + 31)

/-- The bytes of a directory block after `ktfs_create` fills slot `j`:
`strncpy(name, s, 29)` NUL-pads bytes 0–28, byte 29 is forced NUL, the
inode number is stored little-endian at bytes 30–31; other entries
keep their bytes. -/
def setDent (blk : Nat → Nat) (j : Nat) (s : List Nat) (inum : Nat) :
    Nat → Nat :=
  fun o =>
    if j * KTFS_DENSZ ≤ o ∧ o < j * KTFS_DENSZ + KTFS_MAX_FILENAME_LEN then
      s.getD (o - j * KTFS_DENSZ) 0
    else if o = j * KTFS_DENSZ + KTFS_MAX_FILENAME_LEN then 0
    else if o = j * KTFS_DENSZ + 30 then inum % 256
    else if o = j * KTFS_DENSZ + 31 then inum / 256 % 256
    else blk o

/-- The bytes of a directory block after `ktfs_delete` shifts the
entries above slot `ej` down by one and zeroes the last slot. -/
def shiftDents (blk : Nat → Nat) (ej : Nat) : Nat → Nat :=
  fun o =>
    if o / KTFS_DENSZ < ej then blk o
    else if o / KTFS_DENSZ + 1 < KTFS_BLKSZ / KTFS_DENSZ then
      blk (o + KTFS_DENSZ)
    else 0

/-- `ktfs_create`'s inner directory scan over the 16 entries of one
block from slot `j` with `n` slots left: a used entry with the same
name is a duplicate (`EINVAL`); the first free slot over all blocks is
accumulated in `acc` as `(block index, slot index)`. -/
def scanJ (blk : Nat → Nat) (s : List Nat) (i : Nat) :
    Nat → Nat → Option (Nat × Nat) → Except Err (Option (Nat × Nat))
  | _, 0, acc => .ok acc
  | j, n + 1, acc =>
      if dentInode blk j ≠ 0 then
        if dentName blk j = s then .error .EINVAL
        else scanJ blk s i (j + 1) n acc
      else
        match acc with
        | some _ => scanJ blk s i (j + 1) n acc
        | none => scanJ blk s i (j + 1) n (some (i, j))

/-- `ktfs_create`'s outer scan over the root directory's direct
blocks, skipping unallocated blocks. -/
def scanI (st : KtfsState) (root : KtfsInode) (s : List Nat) :
    Nat → Nat → Option (Nat × Nat) → Except Err (Option (Nat × Nat))
  | _, 0, acc => .ok acc
  | i, n + 1, acc =>
      if root.block i = 0 then scanI st root s (i + 1) n acc
      else
        match scanJ (ktfs_read_data_block st (root.block i)) s i 0
            (KTFS_BLKSZ / KTFS_DENSZ) acc with
        | .error e => .error e
        | .ok acc' => scanI st root s (i + 1) n acc'

/-- `ktfs_create`'s free-inode scan: the first inode with `flags = 0`,
over `inode_block_count * 16` inodes. -/
def findFreeInode (st : KtfsState) : Nat → Nat → Option Nat
  | _, 0 => none
  | i, n + 1 =>
      if (st.inodes i).flags = 0 then some i
      else findFreeInode st (i + 1) n

/-- The `if (root_inode.block[0] == 0)` prefix of `ktfs_create`:
allocate a first directory data block, write the updated root inode
back, and zero the new block. -/
def ensureRootBlock (st : KtfsState) (root : KtfsInode) :
    Except Err (KtfsState × KtfsInode) :=
  if root.block 0 = 0 then
    match ktfs_alloc_data_block st with
    | .error e => .error e
    | .ok (nb, st1) =>
        .ok (zeroBlock
               (ktfs_write_inode st1 st.sb.root_directory_inode
                 { root with block := Function.update root.block 0 nb })
               nb,
             { root with block := Function.update root.block 0 nb })
  else .ok (st, root)

/-- The body of `ktfs_create` executed under the filesystem lock. -/
def createLocked (st : KtfsState) (s : List Nat) :
    Except Err Unit × KtfsState :=
  match ensureRootBlock st (ktfs_read_inode st st.sb.root_directory_inode)
      with
  | .error e => (.error e, st)
  | .ok (stA, root) =>
      match scanI stA root s 0 KTFS_NUM_DIRECT_DATA_BLOCKS none with
      | .error e => (.error e, stA)
      | .ok none => (.error .EINVAL, stA)
      | .ok (some (bi, fj)) =>
          match findFreeInode stA 0
              (stA.sb.inode_block_count * (KTFS_BLKSZ / KTFS_INOSZ)) with
          | none => (.error .ENOINODEBLKS, stA)
          | some inum =>
              let stB := setBitmap stA inum true
              let stC := ktfs_write_inode stB inum
                { size := 0, flags := KTFS_FILE_IN_USE,
                  block := fun _ => 0, indirect := 0,
                  dindirect := fun _ => 0 }
              let stD := writeDataBlock stC (root.block bi)
                (setDent (ktfs_read_data_block stC (root.block bi)) fj s
                  inum)
              let rootD := ktfs_read_inode stD stD.sb.root_directory_inode
              (.ok (), ktfs_write_inode stD stD.sb.root_directory_inode
                { rootD with size := (rootD.size + KTFS_DENSZ) % 4294967296 })

/-- `ktfs_create(name)`: a null name or a name longer than
`KTFS_MAX_FILENAME_LEN` is rejected with `EINVAL` before the
filesystem lock is taken; otherwise the body runs under the lock.  The
`Bool` of the result records whether the lock was acquired during the
call (it is released on every path of the body). -/
def ktfs_create (st : KtfsState) (name : Option (List Nat)) :
    Except Err Unit × KtfsState × Bool :=
  match name with
  | none => (.error .EINVAL, st, false)
  | some s =>
      if KTFS_MAX_FILENAME_LEN < s.length then (.error .EINVAL, st, false)
      else
        match createLocked st s with
        | (r, st') => (r, st', true)

/-- `ktfs_delete`'s directory search inside one block: stop at the
first empty entry, return `(slot, inode)` on a name match. -/
def findEntJ (blk : Nat → Nat) (s : List Nat) :
    Nat → Nat → Option (Nat × Nat)
  | _, 0 => none
  | j, n + 1 =>
      if dentInode blk j = 0 then none
      else if dentName blk j = s then some (j, dentInode blk j)
      else findEntJ blk s (j + 1) n

/-- `ktfs_delete`'s search over the root directory's direct blocks. -/
def findEnt (st : KtfsState) (root : KtfsInode) (s : List Nat) :
    Nat → Nat → Option (Nat × Nat × Nat)
  | _, 0 => none
  | i, n + 1 =>
      if root.block i = 0 then findEnt st root s (i + 1) n
      else
        match findEntJ (ktfs_read_data_block st (root.block i)) s 0
            (KTFS_BLKSZ / KTFS_DENSZ) with
        | some (j, inum) => some (i, j, inum)
        | none => findEnt st root s (i + 1) n

/-- `ktfs_free_inode_blocks`: clear bitmap bits of the u32 block
pointers of an indirect block while they are nonzero. -/
def clearRun : KtfsState → (Nat → Nat) → Nat → Nat → KtfsState
  | st, _, _, 0 => st
  | st, blk, i, n + 1 =>
      if u32le blk i = 0 then st
      else
        clearRun (setBitmap st (dataBase st + u32le blk i) false) blk
          (i + 1) n

/-- `ktfs_free_inode_blocks`: clear the bits of the direct blocks. -/
def clearDirect : KtfsState → KtfsInode → Nat → Nat → KtfsState
  | st, _, _, 0 => st
  | st, ino, i, n + 1 =>
      if ino.block i ≠ 0 then
        clearDirect (setBitmap st (dataBase st + ino.block i) false) ino
          (i + 1) n
      else clearDirect st ino (i + 1) n

/-- `ktfs_free_inode_blocks`: one level-1 indirect block of the
double-indirect tree — clear each level-2 run, then the level-1
pointer's own bit, while the pointers are nonzero. -/
def clearD1 : KtfsState → (Nat → Nat) → Nat → Nat → KtfsState
  | st, _, _, 0 => st
  | st, d1, i, n + 1 =>
      if u32le d1 i = 0 then st
      else
        clearD1
          (setBitmap
            (clearRun st (ktfs_read_data_block st (u32le d1 i)) 0
              (KTFS_BLKSZ / POINTER_BYTESIZE))
            (dataBase st + u32le d1 i) false)
          d1 (i + 1) n

/-- `ktfs_free_inode_blocks`: the double-indirect roots. -/
def clearDind : KtfsState → KtfsInode → Nat → Nat → KtfsState
  | st, _, _, 0 => st
  | st, ino, d, n + 1 =>
      if ino.dindirect d ≠ 0 then
        clearDind
          (setBitmap
            (clearD1 st (ktfs_read_data_block st (ino.dindirect d)) 0
              (KTFS_BLKSZ / POINTER_BYTESIZE))
            (dataBase st + ino.dindirect d) false)
          ino (d + 1) n
      else clearDind st ino (d + 1) n

/-- `ktfs_free_inode_blocks(inum)`: direct blocks, then the single
indirect chain, then the double-indirect chains. -/
def ktfs_free_inode_blocks (st : KtfsState) (inum : Nat) : KtfsState :=
  let inode := ktfs_read_inode st inum
  let st1 := clearDirect st inode 0 KTFS_NUM_DIRECT_DATA_BLOCKS
  let st2 :=
    if inode.indirect ≠ 0 then
      setBitmap
        (clearRun st1 (ktfs_read_data_block st1 inode.indirect) 0
          (KTFS_BLKSZ / POINTER_BYTESIZE))
        (dataBase st1 + inode.indirect) false
    else st1
  clearDind st2 inode 0 KTFS_NUM_DINDIRECT_BLOCKS

/-- The body of `ktfs_delete` executed under the filesystem lock. -/
def deleteLocked (st : KtfsState) (s : List Nat) :
    Except Err Unit × KtfsState :=
  match findEnt st (ktfs_read_inode st st.sb.root_directory_inode) s 0
      KTFS_NUM_DIRECT_DATA_BLOCKS with
  | none => (.error .ENOENT, st)
  | some (bi, ej, inum) =>
      let root := ktfs_read_inode st st.sb.root_directory_inode
      let st1 := ktfs_free_inode_blocks st inum
      let st2 := ktfs_write_inode st1 inum
        { size := 0, flags := 0, block := fun _ => 0, indirect := 0,
          dindirect := fun _ => 0 }
      let st3 := setBitmap st2 inum false
      let st4 := writeDataBlock st3 (root.block bi)
        (shiftDents (ktfs_read_data_block st3 (root.block bi)) ej)
      let root4 := ktfs_read_inode st4 st4.sb.root_directory_inode
      (.ok (), ktfs_write_inode st4 st4.sb.root_directory_inode
        { root4 with
            size := (root4.size + 4294967296 - KTFS_DENSZ) % 4294967296 })

/-- `ktfs_delete(name)`: the same pre-lock name validation as
`ktfs_create`, then the body under the lock; the `Bool` records
whether the lock was acquired. -/
def ktfs_delete (st : KtfsState) (name : Option (List Nat)) :
    Except Err Unit × KtfsState × Bool :=
  match name with
  | none => (.error .EINVAL, st, false)
  | some s =>
      if KTFS_MAX_FILENAME_LEN < s.length then (.error .EINVAL, st, false)
      else
        match deleteLocked st s with
        | (r, st') => (r, st', true)

/-- C10: for a null name or a name longer than `KTFS_MAX_FILENAME_LEN`
(29), both `ktfs_create` and `ktfs_delete` return `EINVAL` with the
filesystem state unchanged and without acquiring the filesystem
lock. -/
theorem ktfs_create_delete_einval_before_lock (st : KtfsState)
    (name : Option (List Nat))
    (hbad : name = none ∨
      ∃ s, name = some s ∧ KTFS_MAX_FILENAME_LEN < s.length) :
    ktfs_create st name = (.error .EINVAL, st, false) ∧
    ktfs_delete st name = (.error .EINVAL, st, false) := by
  rcases hbad with h | ⟨s, hs, hlen⟩
  · subst h
    exact ⟨rfl, rfl⟩
  · subst hs
    constructor
    · unfold ktfs_create
      dsimp only
      rw [if_pos hlen]
    · unfold ktfs_delete
      dsimp only
      rw [if_pos hlen]

/-- Witness for `ktfs_create_delete_einval_before_lock`: a 30-byte
name is rejected by both operations with the state untouched. -/
theorem ktfs_create_delete_einval_before_lock_witness :
    ktfs_create ktfsDemoState (some (List.replicate 30 65))
      = (.error .EINVAL, ktfsDemoState, false) ∧
    ktfs_delete ktfsDemoState (some (List.replicate 30 65))
      = (.error .EINVAL, ktfsDemoState, false) :=
  ktfs_create_delete_einval_before_lock ktfsDemoState
    (some (List.replicate 30 65))
    (Or.inr ⟨List.replicate 30 65, rfl, by decide⟩)

end KernelSpec
